import Mathlib

/-!
Verification development for the Spotify collaboration-network repository.

The pipeline's core pieces are embedded shallowly:
* `rate_limit_check` / `runRateLimiter` — the sliding-window rate limiter of
  `build_collaboration_matrix.py` (timestamps are rationals; `time.sleep(w)`
  is modelled as advancing the clock by exactly `w`, and successive calls may
  advance the clock by an arbitrary nonnegative amount).
* `api_call_with_backoff` — the retry loop of `build_collaboration_matrix.py`,
  driven by an oracle `outcomes : ℕ → ApiOutcome` giving the result of each
  attempt; the returned trace lists the back-off sleeps (the limiter's own
  sleeps are part of `rate_limit_check`, not of this trace).
* `spotify_get` — the 429-retry wrapper of `artist_collab.py`, driven by an
  oracle `responses : ℕ → HttpResponse`.
* `get_artist_albums_albums_and_singles`, `get_all_album_tracks` — the
  paginated harvesters of `artist_collab.py`; the network is abstracted as the
  list of pages the API would serve for successive offsets (an exhausted list
  behaves like the empty page the real API returns past the end).
* `extract_collaborators_from_tracks` — ego-mode extraction of
  `artist_collab.py`; the Python `set` is modelled as an insertion-ordered
  duplicate-free list.
* `find_collaborations` / `save_collaboration_details` — restricted-mode
  extraction of `build_collaboration_matrix.py`; `defaultdict(list)` is an
  insertion-ordered association list.
* `driverStep` / `pipelineRun` / `mainPipeline` — the resumable main loop of
  `artist_collab.py`; the output CSV is `Option (List (List String))`
  (`none` = file does not exist), and the per-artist harvest is abstracted as
  a deterministic oracle `collabs : String → List (String × String)`.

Python string comparison (code-point lexicographic, used by `sorted`) is
embedded as the executable `strLtB` on `List Char` and bridged to Mathlib's
order on `String`; Python's stable `sorted` is embedded as the stable
insertion sort `sortedBy`.
-/

/-! ### Rate limiter (build_collaboration_matrix.py, lines 20-56) -/

/-- `RATE_LIMIT_WINDOW = 5.0` seconds. -/
def RATE_LIMIT_WINDOW : ℚ := 5

/-- `MAX_REQUESTS_PER_WINDOW = 20`. -/
def MAX_REQUESTS_PER_WINDOW : ℕ := 20

/-- The `+ 0.1` buffer added to the computed wait. -/
def SLEEP_BUFFER : ℚ := mkRat 1 10

/-- `while request_timestamps and current_time - request_timestamps[0] > RATE_LIMIT_WINDOW:
request_timestamps.popleft()` — the deque is kept oldest-first. -/
def pruneTimestamps (now : ℚ) (dq : List ℚ) : List ℚ :=
  dq.dropWhile (fun ts => decide (RATE_LIMIT_WINDOW < now - ts))

/-- One `rate_limit_check()` call acting on the deque, given the current clock
value `now`.  Returns the new deque and the clock value at which the new
request timestamp was recorded (later than `now` if the call slept). -/
def rlAdmit (dq : List ℚ) (now : ℚ) : List ℚ × ℚ :=
  let dq1 := pruneTimestamps now dq
  if MAX_REQUESTS_PER_WINDOW ≤ dq1.length then
    let wait := RATE_LIMIT_WINDOW - (now - dq1.headD 0) + SLEEP_BUFFER
    if 0 < wait then
      let now2 := now + wait
      (pruneTimestamps now2 dq1 ++ [now2], now2)
    else (dq1 ++ [now], now)
  else (dq1 ++ [now], now)

/-- Limiter state: the deque, the current clock, and the ghost history of all
timestamps ever recorded by `request_timestamps.append(...)`. -/
structure RLState where
  timestamps : List ℚ
  clock : ℚ
  history : List ℚ

/-- `rate_limit_check()` at a clock that has advanced by `δ ≥ 0` since the
previous call returned. -/
def rate_limit_check (s : RLState) (δ : ℚ) : RLState :=
  let r := rlAdmit s.timestamps (s.clock + δ)
  ⟨r.1, r.2, s.history ++ [r.2]⟩

/-- A sequence of `rate_limit_check()` calls with given clock advances. -/
def runRateLimiter (s : RLState) : List ℚ → RLState
  | [] => s
  | δ :: δs => runRateLimiter (rate_limit_check s δ) δs

/-- Number of recorded timestamps falling in the trailing window `[e - W, e]`. -/
def countWindow (e : ℚ) (l : List ℚ) : ℕ :=
  l.countP (fun x => decide (e - RATE_LIMIT_WINDOW ≤ x ∧ x ≤ e))

/-! ### Back-off executor (build_collaboration_matrix.py, lines 70-111) -/

/-- Outcome of one attempted API call: a successful value, a
`spotipy.exceptions.SpotifyException` with its HTTP status and optional
`Retry-After` header, or any other exception. -/
inductive ApiOutcome where
  | success (v : ℕ)
  | spotifyExc (status : ℕ) (retryAfter : Option ℕ)
  | otherExc (code : ℕ)
deriving DecidableEq

/-- Result of `api_call_with_backoff`: the returned value, a re-raised
non-retryable `SpotifyException`, or the final
`Exception(f"Max retries ({max_retries}) exceeded for API call")` — which
carries only the retry count. -/
inductive ApiResult where
  | ok (v : ℕ)
  | nonRetryable (status : ℕ) (retryAfter : Option ℕ)
  | exhausted (maxRetries : ℕ)
deriving DecidableEq

/-- Outcomes that make `api_call_with_backoff` sleep and try again. -/
def isRetryable : ApiOutcome → Bool
  | .success _ => false
  | .spotifyExc status _ => status == 429 || decide (500 ≤ status)
  | .otherExc _ => true

/-- The retry loop of `api_call_with_backoff`, structurally recursing on the
number of remaining loop iterations; the second component is the trace of
back-off sleeps, in order. -/
def backoffLoop (outcomes : ℕ → ApiOutcome) (initial_wait max_retries : ℕ) :
    ℕ → ℕ → ApiResult × List ℕ
  | _, 0 => (.exhausted max_retries, [])
  | attempt, fuel + 1 =>
    match outcomes attempt with
    | .success v => (.ok v, [])
    | .spotifyExc status retryAfter =>
      if status == 429 then
        let wait :=
          match retryAfter with
          | some w => w
          | none => initial_wait * 2 ^ attempt
        let r := backoffLoop outcomes initial_wait max_retries (attempt + 1) fuel
        (r.1, wait :: r.2)
      else if 500 ≤ status then
        let wait := initial_wait * 2 ^ attempt
        let r := backoffLoop outcomes initial_wait max_retries (attempt + 1) fuel
        (r.1, wait :: r.2)
      else
        (.nonRetryable status retryAfter, [])
    | .otherExc _ =>
      let wait := initial_wait * 2 ^ attempt
      let r := backoffLoop outcomes initial_wait max_retries (attempt + 1) fuel
      (r.1, wait :: r.2)

/-- `api_call_with_backoff(func, *args, max_retries, initial_wait, **kwargs)`,
with the attempts' outcomes given by the oracle. -/
def api_call_with_backoff (outcomes : ℕ → ApiOutcome) (max_retries initial_wait : ℕ) :
    ApiResult × List ℕ :=
  backoffLoop outcomes initial_wait max_retries 0 max_retries

/-- The sleep `api_call_with_backoff` performs after a retryable failure at
0-based `attempt`: the `Retry-After` value for a 429 that carries one,
`initial_wait * 2 ** attempt` otherwise. -/
def backoffWaitOf (initial_wait attempt : ℕ) : ApiOutcome → ℕ
  | .spotifyExc status (some w) =>
    if status = 429 then w else initial_wait * 2 ^ attempt
  | _ => initial_wait * 2 ^ attempt

/-! ### spotify_get (artist_collab.py, lines 46-77) -/

/-- A single HTTP response: status, optional `Retry-After` header, body. -/
structure HttpResponse where
  status : ℕ
  retryAfter : Option ℕ
  body : ℕ

/-- What `spotify_get` does: return the parsed body, raise the `HTTPError` of
some response via `raise_for_status()`, or hit the `max_retries = 0` corner
where the final `r.raise_for_status()` reads an unbound local. -/
inductive SpotifyGetResult where
  | json (body : ℕ)
  | httpError (status : ℕ)
  | unboundLocal
deriving DecidableEq

/-- The retry loop of `spotify_get`: sleep, issue the request, loop again on
429 (sleeping `Retry-After`, default 1), otherwise `raise_for_status()` and
return the body.  After the loop the last response's `raise_for_status()`
runs. -/
def spotifyGetLoop (responses : ℕ → HttpResponse) : ℕ → ℕ → SpotifyGetResult
  | attempt, 0 =>
    match attempt with
    | 0 => .unboundLocal
    | a + 1 =>
      if 400 ≤ (responses a).status then .httpError (responses a).status
      else .json (responses a).body
  | attempt, fuel + 1 =>
    if (responses attempt).status == 429 then
      spotifyGetLoop responses (attempt + 1) fuel
    else if 400 ≤ (responses attempt).status then .httpError (responses attempt).status
    else .json (responses attempt).body

/-- `spotify_get(url, params, token, max_retries)` with the responses given by
the oracle. -/
def spotify_get (responses : ℕ → HttpResponse) (max_retries : ℕ) : SpotifyGetResult :=
  spotifyGetLoop responses 0 max_retries

/-! ### Code-point string order and stable sort (Python `sorted`) -/

/-- Python's `<` on strings: code-point lexicographic comparison. -/
def strLtB : List Char → List Char → Bool
  | [], [] => false
  | [], _ :: _ => true
  | _ :: _, [] => false
  | a :: as, b :: bs =>
    if a.toNat < b.toNat then true
    else if b.toNat < a.toNat then false
    else strLtB as bs

/-- `tuple(sorted([a, b]))`: swap the two elements exactly when the second
compares less than the first. -/
def sortPairB (a b : String) : String × String :=
  if strLtB b.data a.data then (b, a) else (a, b)

/-- ASCII `str.lower()` on a character (the inputs of interest are ASCII). -/
def lowC (c : Char) : Char :=
  if 65 ≤ c.toNat ∧ c.toNat ≤ 90 then Char.ofNat (c.toNat + 32) else c

/-- Stable insert of `x` in front of the first element `y` with `le x y`. -/
def insertSorted (le : α → α → Bool) (x : α) : List α → List α
  | [] => [x]
  | y :: ys => if le x y then x :: y :: ys else y :: insertSorted le x ys

/-- Stable sort (same ordering and stability contract as Python `sorted`). -/
def sortedBy (le : α → α → Bool) : List α → List α
  | [] => []
  | x :: xs => insertSorted le x (sortedBy le xs)

/-! ### Restricted-mode extraction (build_collaboration_matrix.py, lines 270-316) -/

/-- A track record as consumed by `find_collaborations`: optional `id`
(`'id' not in track or track['id'] is None`), display `name`, and the list of
credited artist ids (`[a['id'] for a in track.get('artists', [])]`). -/
structure MTrack where
  id : Option String
  name : String
  artistIds : List String
deriving DecidableEq

/-- `collaborations[pair].append(track_name)` on a `defaultdict(list)` kept as
an insertion-ordered association list. -/
def dictAppend (m : List ((String × String) × List String)) (k : String × String)
    (v : String) : List ((String × String) × List String) :=
  match m with
  | [] => [(k, [v])]
  | (k', vs) :: rest =>
    if k' = k then (k', vs ++ [v]) :: rest else (k', vs) :: dictAppend rest k v

/-- The `for i / for j in range(i+1, ...)` double loop: all index-ordered
pairs of a list. -/
def pairsOf : List String → List (String × String)
  | [] => []
  | a :: rest => rest.map (fun b => (a, b)) ++ pairsOf rest

/-- The per-track body of `find_collaborations`, threading the
`processed_tracks` set (as a list) and the `collaborations` dict. -/
def goFind (artist_ids : List String) :
    List (Option MTrack) → List String → List ((String × String) × List String) →
    List String × List ((String × String) × List String)
  | [], processed, collabs => (processed, collabs)
  | none :: rest, processed, collabs => goFind artist_ids rest processed collabs
  | some t :: rest, processed, collabs =>
    match t.id with
    | none => goFind artist_ids rest processed collabs
    | some tid =>
      if tid ∈ processed then goFind artist_ids rest processed collabs
      else
        let collaborating := t.artistIds.filter (fun aid => decide (aid ∈ artist_ids))
        if 2 ≤ collaborating.length then
          goFind artist_ids rest (tid :: processed)
            ((pairsOf collaborating).foldl
              (fun m pr => dictAppend m (sortPairB pr.1 pr.2) t.name) collabs)
        else goFind artist_ids rest (tid :: processed) collabs

/-- `find_collaborations(all_tracks, artist_ids)`; a `none` entry models a
falsy `track` record (`if not track: continue`). -/
def find_collaborations (all_tracks : List (Option MTrack)) (artist_ids : List String) :
    List ((String × String) × List String) :=
  (goFind artist_ids all_tracks [] []).2

/-- Python tuple comparison on the `(artist1_id, artist2_id)` dict keys (keys
are distinct, so the comparison never reaches the track lists). -/
def pairLtB (p q : String × String) : Bool :=
  if strLtB p.1.data q.1.data then true
  else if strLtB q.1.data p.1.data then false
  else strLtB p.2.data q.2.data

/-- `save_collaboration_details(collaborations, artists, ...)`: the rows of
the written CSV — header, then one row per collaboration pair in sorted key
order: both artist names, `len(tracks)`, `'; '.join(tracks)`.  The
`id_to_name` dict is abstracted as a function. -/
def save_collaboration_details (collaborations : List ((String × String) × List String))
    (id_to_name : String → String) : List (List String) :=
  ["Artist 1", "Artist 2", "Number of Collaborations", "Track Names"] ::
    (sortedBy (fun x y => !(pairLtB y.1 x.1)) collaborations).map
      (fun it => [id_to_name it.1.1, id_to_name it.1.2, toString it.2.length,
        String.intercalate "; " it.2])

/-! ### Ego-mode harvest and extraction (artist_collab.py, lines 83-238) -/

/-- An album/single record: `alb["id"]` and `alb.get("name", ...)`. -/
structure Album where
  id : String
  name : String
deriving DecidableEq

/-- One response of the `/artists/{id}/albums` endpoint: its `items` and the
truthiness of its `next` field. -/
structure AlbumPage where
  items : List Album
  next : Bool
deriving DecidableEq

/-- A credited artist on a track: `a.get("id")` and `a["name"]`. -/
structure EArtist where
  id : Option String
  name : String
deriving DecidableEq

/-- A track record as consumed by `extract_collaborators_from_tracks`. -/
structure EgoTrack where
  id : Option String
  name : String
  artists : List EArtist
deriving DecidableEq

/-- One response of the `/albums/{id}/tracks` endpoint. -/
structure TrackPage where
  items : List EgoTrack
  next : Bool
deriving DecidableEq

/-- The `for alb in items` body of `get_artist_albums_albums_and_singles`:
skip ids already seen, append new ones, and return early (third component
`true`) as soon as `len(all_items) >= max_albums`. -/
def consumeAlbumItems (max_albums : ℕ) :
    List Album → List String → List Album → List Album × List String × Bool
  | [], seen, acc => (acc, seen, false)
  | alb :: rest, seen, acc =>
    if alb.id ∈ seen then consumeAlbumItems max_albums rest seen acc
    else
      let acc2 := acc ++ [alb]
      if max_albums ≤ acc2.length then (acc2, alb.id :: seen, true)
      else consumeAlbumItems max_albums rest (alb.id :: seen) acc2

/-- The `while True` page loop of `get_artist_albums_albums_and_singles`:
stop on an empty page, on the early return, or on a falsy `next`. -/
def albumsPageLoop (max_albums : ℕ) :
    List AlbumPage → List String → List Album → List Album
  | [], _, acc => acc
  | pg :: rest, seen, acc =>
    if pg.items.isEmpty then acc
    else
      let r := consumeAlbumItems max_albums pg.items seen acc
      if r.2.2 then r.1
      else if pg.next then albumsPageLoop max_albums rest r.2.1 r.1 else r.1

/-- `get_artist_albums_albums_and_singles(artist_id, token, ..., max_albums)`
with the successive pages given by `pages`. -/
def get_artist_albums_albums_and_singles (max_albums : ℕ) (pages : List AlbumPage) :
    List Album :=
  albumsPageLoop max_albums pages [] []

/-- Same recursion as `albumsPageLoop`, but recording whether the run ended
through the `len(all_items) >= max_albums` early return. -/
def albumsPageLoopCapped (max_albums : ℕ) :
    List AlbumPage → List String → List Album → Bool
  | [], _, _ => false
  | pg :: rest, seen, acc =>
    if pg.items.isEmpty then false
    else
      let r := consumeAlbumItems max_albums pg.items seen acc
      if r.2.2 then true
      else if pg.next then albumsPageLoopCapped max_albums rest r.2.1 r.1 else false

/-- The `while True` page loop of `get_all_album_tracks`: plain `extend`, no
deduplication. -/
def tracksPageLoop : List TrackPage → List EgoTrack → List EgoTrack
  | [], acc => acc
  | pg :: rest, acc =>
    if pg.items.isEmpty then acc
    else
      let acc2 := acc ++ pg.items
      if pg.next then tracksPageLoop rest acc2 else acc2

/-- `get_all_album_tracks(album_id, token, ...)` with the successive pages
given by `pages`. -/
def get_all_album_tracks (pages : List TrackPage) : List EgoTrack :=
  tracksPageLoop pages []

/-- `{a["id"] for a in artists if a.get("id")}` — ids that are present and
truthy (non-empty). -/
def credIds (t : EgoTrack) : List String :=
  (t.artists.filterMap EArtist.id).filter (fun i => !(i == ""))

/-- `collaborators.add(x)`: the Python set as an insertion-ordered
duplicate-free list. -/
def addCollab (s : List (String × String)) (x : String × String) :
    List (String × String) :=
  if x ∈ s then s else s ++ [x]

/-- The `for a in artists` loop of `extract_collaborators_from_tracks`:
skip falsy ids and the primary artist, add `(aid, a["name"])` otherwise. -/
def egoFold (primary : String) (s : List (String × String)) (l : List EArtist) :
    List (String × String) :=
  l.foldl
    (fun s a =>
      match a.id with
      | none => s
      | some aid => if aid = "" ∨ aid = primary then s else addCollab s (aid, a.name))
    s

/-- The pairs `egoFold` would add for the artists of one track (the track
qualifies only if the primary artist is among its credited ids). -/
def egoContribsList (primary : String) (l : List EArtist) : List (String × String) :=
  l.filterMap
    (fun a =>
      match a.id with
      | none => none
      | some aid => if aid = "" ∨ aid = primary then none else some (aid, a.name))

/-- The per-track body of `extract_collaborators_from_tracks`: tracks not
crediting the primary artist are skipped; note the track's own `id` is never
consulted. -/
def processEgoTrack (primary : String) (s : List (String × String)) (t : EgoTrack) :
    List (String × String) :=
  if primary ∈ credIds t then egoFold primary s t.artists else s

/-- `extract_collaborators_from_tracks(tracks, primary_artist_id)`. -/
def extract_collaborators_from_tracks (tracks : List EgoTrack) (primary : String) :
    List (String × String) :=
  tracks.foldl (processEgoTrack primary) []

/-- Sort key of `sorted(collab_set, key=lambda x: x[1].lower())`. -/
def lowerKeyLe (x y : String × String) : Bool :=
  !(strLtB (y.2.data.map lowC) (x.2.data.map lowC))

/-- The output rows built at the end of `get_collaborators_for_artist_id`
from the extracted collaborator set, written as the CSV cells
`[primary_artist, primary_artist_id, collaborator_id, collaborator_name]`. -/
def egoCollabRows (artist_name artist_id : String) (tracks : List EgoTrack) :
    List (List String) :=
  (sortedBy lowerKeyLe (extract_collaborators_from_tracks tracks artist_id)).map
    (fun p => [artist_name, artist_id, p.1, p.2])

/-- Number of tracks crediting both given artists — the "qualifying shared
tracks" count of the claim about the ego-mode edge table. -/
def sharedTrackCount (tracks : List EgoTrack) (a b : String) : ℕ :=
  (tracks.filter (fun t => decide (a ∈ credIds t) && decide (b ∈ credIds t))).length

/-! ### Checkpoint store and pipeline driver (artist_collab.py, lines 244-370) -/

/-- The header `DictWriter.writeheader()` writes (field order of the row
dicts built in `get_collaborators_for_artist_id`). -/
def csvHeader : List String :=
  ["primary_artist", "primary_artist_id", "collaborator_id", "collaborator_name"]

/-- The rows one artist contributes, given the deterministic harvest oracle
`collabs` (collaborator id/name pairs in the order they are written). -/
def collabRowsFor (collabs : String → List (String × String)) (name id : String) :
    List (List String) :=
  (collabs id).map (fun p => [name, id, p.1, p.2])

/-- `append_collaborators_to_csv(collaborators, output_csv)`: no-op on an
empty row list; otherwise create the file with a header or append. -/
def append_collaborators_to_csv (rows : List (List String))
    (file : Option (List (List String))) : Option (List (List String)) :=
  if rows.isEmpty then file
  else
    match file with
    | none => some (csvHeader :: rows)
    | some c => some (c ++ rows)

/-- `load_already_processed_artists(output_csv)`: the `primary_artist_id`
column (index 1 under `csvHeader`) of every data row, skipping falsy ids. -/
def load_already_processed_artists (file : Option (List (List String))) : List String :=
  match file with
  | none => []
  | some c => ((c.drop 1).filterMap (fun r => r.get? 1)).filter (fun s => !(s == ""))

/-- Driver state: the output file and the in-memory `processed_ids` set. -/
structure DrvState where
  file : Option (List (List String))
  processed : List String

/-- One iteration of the `for idx, (name, artist_id) in enumerate(artists)`
loop: skip if already processed, otherwise harvest, append and record. -/
def driverStep (collabs : String → List (String × String)) (st : DrvState)
    (a : String × String) : DrvState :=
  if a.2 ∈ st.processed then st
  else
    { file := append_collaborators_to_csv (collabRowsFor collabs a.1 a.2) st.file,
      processed := a.2 :: st.processed }

/-- The driver loop over (part of) the roster. -/
def pipelineRun (collabs : String → List (String × String))
    (roster : List (String × String)) (st : DrvState) : DrvState :=
  roster.foldl (driverStep collabs) st

/-- `main()` starting from a given output file: seed `processed_ids` from the
file, then run the loop; result is the final output file. -/
def mainPipeline (collabs : String → List (String × String))
    (roster : List (String × String)) (file : Option (List (List String))) :
    Option (List (List String)) :=
  (pipelineRun collabs roster ⟨file, load_already_processed_artists file⟩).file

/-- The data rows of the output file (everything after the header). -/
def csvDataRows (file : Option (List (List String))) : List (List String) :=
  match file with
  | none => []
  | some c => c.drop 1

/-- The artist-id cells (column 1, `primary_artist_id`) of a block of data
rows, read the way `load_already_processed_artists` reads them. -/
def rowIdCells (rows : List (List String)) : List String :=
  (rows.filterMap (fun r => r.get? 1)).filter (fun s => !(s == ""))

/-! ### Proof-only invariants -/

/-- Invariant of the rate limiter: the history splits into a window-expired
part and the deque, every timestamp is in the past, the deque never exceeds
the limit, and no trailing window of the history ever holds more than
`MAX_REQUESTS_PER_WINDOW` timestamps. -/
def RLInv (s : RLState) : Prop :=
  (∃ dropped, s.history = dropped ++ s.timestamps ∧
      ∀ x ∈ dropped, RATE_LIMIT_WINDOW < s.clock - x)
  ∧ (∀ x ∈ s.history, x ≤ s.clock)
  ∧ s.timestamps.length ≤ MAX_REQUESTS_PER_WINDOW
  ∧ ∀ e : ℚ, countWindow e s.history ≤ MAX_REQUESTS_PER_WINDOW

/-! ## Generic list lemmas -/

theorem dropWhile_head_not (p : α → Bool) :
    ∀ (l : List α) {y : α} {ys : List α}, l.dropWhile p = y :: ys → p y = false := by
  intro l
  induction l with
  | nil => intro y ys h; simp at h
  | cons a as ih =>
    intro y ys h
    rw [List.dropWhile_cons] at h
    by_cases hp : p a = true
    · rw [if_pos hp] at h; exact ih h
    · rw [if_neg hp] at h
      cases h
      simpa using hp

theorem length_dropWhile_le (p : α → Bool) (l : List α) :
    (l.dropWhile p).length ≤ l.length := by
  have h := congrArg List.length (List.takeWhile_append_dropWhile p l)
  rw [List.length_append] at h
  omega

theorem sleep_buffer_pos : 0 < SLEEP_BUFFER := by
  rw [SLEEP_BUFFER, Rat.mkRat_eq_div]; norm_num

/-! ## Rate limiter lemmas (claim C1) -/

theorem prune_decomp (now : ℚ) (dq : List ℚ) :
    ∃ removed, dq = removed ++ pruneTimestamps now dq ∧
      ∀ x ∈ removed, RATE_LIMIT_WINDOW < now - x := by
  refine ⟨dq.takeWhile (fun ts => decide (RATE_LIMIT_WINDOW < now - ts)),
    (List.takeWhile_append_dropWhile _ _).symm, ?_⟩
  intro x hx
  simpa using List.mem_takeWhile_imp hx

theorem rlAdmit_spec (dq : List ℚ) (now : ℚ)
    (hlen : dq.length ≤ MAX_REQUESTS_PER_WINDOW) :
    now ≤ (rlAdmit dq now).2 ∧
    ∃ removed front,
      dq = removed ++ front ∧
      (rlAdmit dq now).1 = front ++ [(rlAdmit dq now).2] ∧
      (∀ x ∈ removed, RATE_LIMIT_WINDOW < (rlAdmit dq now).2 - x) ∧
      front.length + 1 ≤ MAX_REQUESTS_PER_WINDOW := by
  obtain ⟨r1, hdq, hr1⟩ := prune_decomp now dq
  have hd1len : (pruneTimestamps now dq).length ≤ dq.length := length_dropWhile_le _ _
  by_cases hm : MAX_REQUESTS_PER_WINDOW ≤ (pruneTimestamps now dq).length
  · -- the deque is full: the call sleeps
    have hne : pruneTimestamps now dq ≠ [] := by
      intro h
      rw [h] at hm
      simp [MAX_REQUESTS_PER_WINDOW] at hm
    obtain ⟨h0, t, ht⟩ := List.exists_cons_of_ne_nil hne
    have hph : (fun ts => decide (RATE_LIMIT_WINDOW < now - ts)) h0 = false :=
      dropWhile_head_not _ dq ht
    have hh0 : now - h0 ≤ RATE_LIMIT_WINDOW := by simpa using hph
    have hhead : (pruneTimestamps now dq).headD 0 = h0 := by rw [ht]; rfl
    have hwait : 0 < RATE_LIMIT_WINDOW - (now - (pruneTimestamps now dq).headD 0) +
        SLEEP_BUFFER := by
      rw [hhead]
      have := sleep_buffer_pos
      linarith
    have heq : rlAdmit dq now =
        (pruneTimestamps (now + (RATE_LIMIT_WINDOW -
            (now - (pruneTimestamps now dq).headD 0) + SLEEP_BUFFER))
            (pruneTimestamps now dq) ++
          [now + (RATE_LIMIT_WINDOW - (now - (pruneTimestamps now dq).headD 0) +
            SLEEP_BUFFER)],
         now + (RATE_LIMIT_WINDOW - (now - (pruneTimestamps now dq).headD 0) +
            SLEEP_BUFFER)) := by
      rw [rlAdmit]
      simp only [if_pos hm, if_pos hwait]
    set now2 := now + (RATE_LIMIT_WINDOW - (now - (pruneTimestamps now dq).headD 0) +
      SLEEP_BUFFER) with hnow2
    obtain ⟨r2, hdq1, hr2⟩ := prune_decomp now2 (pruneTimestamps now dq)
    have hnow2h0 : RATE_LIMIT_WINDOW < now2 - h0 := by
      rw [hnow2, hhead]
      have := sleep_buffer_pos
      linarith
    have hfrontlen : (pruneTimestamps now2 (pruneTimestamps now dq)).length + 1 ≤
        MAX_REQUESTS_PER_WINDOW := by
      have h1 : pruneTimestamps now2 (pruneTimestamps now dq) =
          List.dropWhile (fun ts => decide (RATE_LIMIT_WINDOW < now2 - ts)) t := by
        rw [pruneTimestamps, ht, List.dropWhile_cons, if_pos (by simpa using hnow2h0)]
      have h2 : (List.dropWhile (fun ts => decide (RATE_LIMIT_WINDOW < now2 - ts)) t).length
          ≤ t.length := length_dropWhile_le _ _
      have h3 : t.length + 1 = (pruneTimestamps now dq).length := by rw [ht]; rfl
      have h5 : (pruneTimestamps now2 (pruneTimestamps now dq)).length =
          (List.dropWhile (fun ts => decide (RATE_LIMIT_WINDOW < now2 - ts)) t).length := by
        rw [h1]
      omega
    have hnle : now ≤ now2 := by
      rw [hnow2, hhead]
      have := sleep_buffer_pos
      linarith
    refine ⟨by rw [heq]; exact hnle, r1 ++ r2,
      pruneTimestamps now2 (pruneTimestamps now dq), ?_, by rw [heq], ?_, hfrontlen⟩
    · rw [List.append_assoc]
      exact hdq.trans (congrArg (fun l => r1 ++ l) hdq1)
    · intro x hx
      rw [heq]
      show RATE_LIMIT_WINDOW < now2 - x
      rcases List.mem_append.mp hx with hx1 | hx2
      · have h9 := hr1 x hx1
        have hb := sleep_buffer_pos
        rw [hnow2, hhead]
        linarith
      · exact hr2 x hx2
  · -- there is room: no sleep
    have heq : rlAdmit dq now = (pruneTimestamps now dq ++ [now], now) := by
      rw [rlAdmit]
      simp only [if_neg hm]
    refine ⟨by rw [heq], r1, pruneTimestamps now dq, hdq, by rw [heq], ?_, by omega⟩
    intro x hx
    rw [heq]
    exact hr1 x hx

theorem rate_limit_check_inv (s : RLState) (δ : ℚ) (hδ : 0 ≤ δ) (hinv : RLInv s) :
    RLInv (rate_limit_check s δ) := by
  obtain ⟨⟨dropped, hhist, hdropped⟩, h2, h3, h4⟩ := hinv
  obtain ⟨hnow, removed, front, hdq, hres, hrem, hlen⟩ :=
    rlAdmit_spec s.timestamps (s.clock + δ) h3
  have hclock : s.clock ≤ (rlAdmit s.timestamps (s.clock + δ)).2 := by linarith
  set n2 := (rlAdmit s.timestamps (s.clock + δ)).2 with hn2
  have hstate : rate_limit_check s δ =
      ⟨(rlAdmit s.timestamps (s.clock + δ)).1, n2, s.history ++ [n2]⟩ := rfl
  rw [RLInv, hstate]
  refine ⟨⟨dropped ++ removed, ?_, ?_⟩, ?_, ?_, ?_⟩
  · rw [hres, hhist, hdq]
    simp [List.append_assoc]
  · intro x hx
    rcases List.mem_append.mp hx with hx1 | hx2
    · have := hdropped x hx1
      linarith
    · exact hrem x hx2
  · intro x hx
    rcases List.mem_append.mp hx with hx1 | hx2
    · exact le_trans (h2 x hx1) hclock
    · simp only [List.mem_singleton] at hx2
      exact hx2.le
  · rw [hres, List.length_append]
    simpa using hlen
  · intro e
    rw [countWindow, List.countP_append]
    by_cases hpred : (e - RATE_LIMIT_WINDOW ≤ n2 ∧ n2 ≤ e)
    · -- the new timestamp lands in the window ending at e
      have hcnt1 : countWindow e s.history ≤ countWindow n2 s.history := by
        apply List.countP_mono_left
        intro x hx hpx
        have hxe : e - RATE_LIMIT_WINDOW ≤ x ∧ x ≤ e := by simpa using hpx
        have hxc : x ≤ s.clock := h2 x hx
        simp only [decide_eq_true_eq]
        constructor
        · linarith [hpred.2]
        · linarith
      have hcnt2 : countWindow n2 s.history + 1 ≤ MAX_REQUESTS_PER_WINDOW := by
        rw [countWindow, hhist, hdq, List.countP_append, List.countP_append]
        have hz1 : List.countP (fun x => decide (n2 - RATE_LIMIT_WINDOW ≤ x ∧ x ≤ n2))
            dropped = 0 := by
          rw [List.countP_eq_zero]
          intro x hx
          have h9 := hdropped x hx
          simp only [decide_eq_true_eq]
          rintro ⟨hge, -⟩
          linarith
        have hz2 : List.countP (fun x => decide (n2 - RATE_LIMIT_WINDOW ≤ x ∧ x ≤ n2))
            removed = 0 := by
          rw [List.countP_eq_zero]
          intro x hx
          have h9 := hrem x hx
          simp only [decide_eq_true_eq]
          rintro ⟨hge, -⟩
          linarith
        have hf : List.countP (fun x => decide (n2 - RATE_LIMIT_WINDOW ≤ x ∧ x ≤ n2))
            front ≤ front.length := List.countP_le_length _
        omega
      have hone : List.countP (fun x => decide (e - RATE_LIMIT_WINDOW ≤ x ∧ x ≤ e))
          [n2] ≤ 1 := by
        rw [List.countP_cons]
        simp only [List.countP_nil]
        split_ifs <;> omega
      simp only [countWindow] at hcnt1 hcnt2
      omega
    · -- the new timestamp is outside the window ending at e
      have hz : List.countP (fun x => decide (e - RATE_LIMIT_WINDOW ≤ x ∧ x ≤ e))
          [n2] = 0 := by
        rw [List.countP_eq_zero]
        intro x hx
        simp only [List.mem_singleton] at hx
        subst hx
        simpa using hpred
      have h5 := h4 e
      rw [countWindow] at h5
      omega

theorem runRateLimiter_inv :
    ∀ (δs : List ℚ) (s : RLState), (∀ d ∈ δs, 0 ≤ d) → RLInv s →
      RLInv (runRateLimiter s δs) := by
  intro δs
  induction δs with
  | nil => intro s _ hinv; exact hinv
  | cons d ds ih =>
    intro s hall hinv
    exact ih _ (fun x hx => hall x (List.mem_cons_of_mem _ hx))
      (rate_limit_check_inv s d (hall d (List.mem_cons_self d ds)) hinv)

theorem runRateLimiter_history_length :
    ∀ (δs : List ℚ) (s : RLState),
      (runRateLimiter s δs).history.length = s.history.length + δs.length := by
  intro δs
  induction δs with
  | nil => intro s; simp [runRateLimiter]
  | cons d ds ih =>
    intro s
    rw [runRateLimiter, ih]
    have : (rate_limit_check s d).history.length = s.history.length + 1 := by
      rw [rate_limit_check]
      simp
    rw [this]
    simp only [List.length_cons]
    omega

/-- Claim C1: for every sequence of `rate_limit_check` calls (clock advancing
by a nonnegative amount before each call, sleeps advancing it by exactly the
computed wait), at no point do more than `MAX_REQUESTS_PER_WINDOW` recorded
admission timestamps fall within any trailing interval of
`RATE_LIMIT_WINDOW` seconds, and each call records exactly one new
timestamp. -/
theorem C1_rate_limiter_window_bound (t0 : ℚ) (deltas : List ℚ)
    (h : ∀ d ∈ deltas, 0 ≤ d) :
    (∀ e : ℚ, countWindow e (runRateLimiter ⟨[], t0, []⟩ deltas).history
        ≤ MAX_REQUESTS_PER_WINDOW)
    ∧ (runRateLimiter ⟨[], t0, []⟩ deltas).history.length = deltas.length := by
  have hinv : RLInv (⟨[], t0, []⟩ : RLState) := by
    refine ⟨⟨[], rfl, by simp⟩, by simp, by simp, ?_⟩
    intro e
    simp [countWindow]
  refine ⟨(runRateLimiter_inv deltas _ h hinv).2.2.2, ?_⟩
  simpa using runRateLimiter_history_length deltas ⟨[], t0, []⟩

/-- Witness for C1: twenty-five back-to-back calls at a standing clock. -/
theorem C1_rate_limiter_window_bound_witness :
    (∀ d ∈ List.replicate 25 (0 : ℚ), 0 ≤ d) ∧
    countWindow 0 (runRateLimiter ⟨[], 0, []⟩ (List.replicate 25 (0 : ℚ))).history
      ≤ MAX_REQUESTS_PER_WINDOW := by
  have h : ∀ d ∈ List.replicate 25 (0 : ℚ), 0 ≤ d := by
    intro d hd
    rw [List.eq_of_mem_replicate hd]
  exact ⟨h, (C1_rate_limiter_window_bound 0 (List.replicate 25 0) h).1 0⟩

/-! ## Back-off executor lemmas (claims C2, C3) -/

theorem backoffLoop_trace_get (outcomes : ℕ → ApiOutcome) (init maxr : ℕ) :
    ∀ (fuel att k : ℕ), k < fuel →
      (∀ j, j ≤ k → isRetryable (outcomes (att + j)) = true) →
      (backoffLoop outcomes init maxr att fuel).2.get? k =
        some (backoffWaitOf init (att + k) (outcomes (att + k))) := by
  intro fuel
  induction fuel with
  | zero => intro att k hk; omega
  | succ n ih =>
    intro att k hk hr
    have h0 : isRetryable (outcomes att) = true := by
      have := hr 0 (Nat.zero_le _)
      simpa using this
    rcases hout : outcomes att with v | ⟨status, ra⟩ | code
    · rw [hout] at h0
      simp [isRetryable] at h0
    · by_cases hs : (status == 429) = true
      · have hseq : status = 429 := by simpa using hs
        subst hseq
        simp only [backoffLoop, hout, if_pos hs]
        cases k with
        | zero =>
          simp only [Nat.add_zero, hout]
          cases ra with
          | none => simp [backoffWaitOf]
          | some w => simp [backoffWaitOf]
        | succ k =>
          show (backoffLoop outcomes init maxr (att + 1) n).2.get? k = _
          rw [show att + (k + 1) = att + 1 + k by omega]
          apply ih (att + 1) k (by omega)
          intro j hj
          have := hr (j + 1) (by omega)
          rw [show att + 1 + j = att + (j + 1) by omega]
          exact this
      · by_cases h5 : 500 ≤ status
        · simp only [backoffLoop, hout]
          rw [if_neg hs, if_pos h5]
          cases k with
          | zero =>
            simp only [Nat.add_zero, hout]
            have hne : status ≠ 429 := by simpa using hs
            cases ra with
            | none => simp [backoffWaitOf]
            | some w => simp [backoffWaitOf, if_neg hne]
          | succ k =>
            show (backoffLoop outcomes init maxr (att + 1) n).2.get? k = _
            rw [show att + (k + 1) = att + 1 + k by omega]
            apply ih (att + 1) k (by omega)
            intro j hj
            have := hr (j + 1) (by omega)
            rw [show att + 1 + j = att + (j + 1) by omega]
            exact this
        · exfalso
          rw [hout] at h0
          simp only [isRetryable, Bool.or_eq_true, decide_eq_true_eq] at h0
          rcases h0 with h0 | h0
          · exact hs h0
          · exact h5 h0
    · simp only [backoffLoop, hout]
      cases k with
      | zero =>
        simp only [Nat.add_zero, hout]
        simp [backoffWaitOf]
      | succ k =>
        show (backoffLoop outcomes init maxr (att + 1) n).2.get? k = _
        rw [show att + (k + 1) = att + 1 + k by omega]
        apply ih (att + 1) k (by omega)
        intro j hj
        have := hr (j + 1) (by omega)
        rw [show att + 1 + j = att + (j + 1) by omega]
        exact this

/-- Claim C2: when an attempt fails with HTTP 429 and no `Retry-After`, the
delay before the n-th retry is `initial_wait * 2 ^ (n - 1)` (0-based attempt
`n - 1`); when a `Retry-After` value is present on a 429, the delay is
exactly that value, whatever the attempt number. -/
theorem C2_backoff_delay_schedule (outcomes : ℕ → ApiOutcome)
    (max_retries initial_wait : ℕ) :
    (∀ n, 1 ≤ n → n ≤ max_retries →
        (∀ i, i < n → outcomes i = .spotifyExc 429 none) →
        (api_call_with_backoff outcomes max_retries initial_wait).2.get? (n - 1) =
          some (initial_wait * 2 ^ (n - 1)))
    ∧ (∀ i w, i < max_retries →
        (∀ j, j < i → isRetryable (outcomes j) = true) →
        outcomes i = .spotifyExc 429 (some w) →
        (api_call_with_backoff outcomes max_retries initial_wait).2.get? i = some w) := by
  constructor
  · intro n h1 h2 hall
    have hr : ∀ j, j ≤ n - 1 → isRetryable (outcomes (0 + j)) = true := by
      intro j hj
      rw [Nat.zero_add, hall j (by omega)]
      simp [isRetryable]
    have h := backoffLoop_trace_get outcomes initial_wait max_retries max_retries 0
      (n - 1) (by omega) hr
    rw [Nat.zero_add, hall (n - 1) (by omega)] at h
    simpa [backoffWaitOf] using h
  · intro i w hi hr hout
    have hr2 : ∀ j, j ≤ i → isRetryable (outcomes (0 + j)) = true := by
      intro j hj
      rw [Nat.zero_add]
      rcases Nat.lt_or_ge j i with hlt | hge
      · exact hr j hlt
      · have : j = i := by omega
        rw [this, hout]
        simp [isRetryable]
    have h := backoffLoop_trace_get outcomes initial_wait max_retries max_retries 0 i
      hi hr2
    rw [Nat.zero_add, hout] at h
    simpa [backoffWaitOf] using h

/-- Witness for C2: a pure-429 run (third retry sleeps `2 * 2 ^ 2`), and a
run whose second attempt returns a 429 with `Retry-After: 7`. -/
theorem C2_backoff_delay_schedule_witness :
    (api_call_with_backoff (fun _ => ApiOutcome.spotifyExc 429 none) 5 2).2.get? 2 =
      some 8
    ∧ (api_call_with_backoff
        (fun i => if i = 0 then ApiOutcome.spotifyExc 429 none
          else ApiOutcome.spotifyExc 429 (some 7)) 5 2).2.get? 1 = some 7 := by
  constructor
  · have h := (C2_backoff_delay_schedule (fun _ => ApiOutcome.spotifyExc 429 none) 5 2).1
      3 (by omega) (by omega) (fun i _ => rfl)
    simpa using h
  · have h := (C2_backoff_delay_schedule
        (fun i => if i = 0 then ApiOutcome.spotifyExc 429 none
          else ApiOutcome.spotifyExc 429 (some 7)) 5 2).2
      1 7 (by omega) (fun j hj => by
        have hj0 : j = 0 := by omega
        subst hj0
        decide) (by decide)
    exact h

/-- Claim C3 counterexample: two runs whose five attempts fail with different
underlying errors (`otherExc 7` vs `otherExc 8`) produce the identical
result `exhausted 5` — the raised max-retries exception carries only the
retry count, so the failure of the final attempt is not recoverable from
it. -/
theorem C3_counterexample :
    (api_call_with_backoff (fun _ => ApiOutcome.otherExc 7) 5 2).1 =
      ApiResult.exhausted 5
    ∧ api_call_with_backoff (fun _ => ApiOutcome.otherExc 7) 5 2 =
        api_call_with_backoff (fun _ => ApiOutcome.otherExc 8) 5 2 :=
  ⟨by decide, by decide⟩

theorem backoffLoop_exhausted (outcomes : ℕ → ApiOutcome) (init maxr : ℕ) :
    ∀ (fuel att : ℕ), (∀ j, j < fuel → isRetryable (outcomes (att + j)) = true) →
      (backoffLoop outcomes init maxr att fuel).1 = ApiResult.exhausted maxr := by
  intro fuel
  induction fuel with
  | zero => intro att _; rfl
  | succ n ih =>
    intro att h
    have h0 : isRetryable (outcomes att) = true := by
      have := h 0 (by omega)
      simpa using this
    have hnext : ∀ j, j < n → isRetryable (outcomes (att + 1 + j)) = true := by
      intro j hj
      have := h (j + 1) (by omega)
      rw [show att + 1 + j = att + (j + 1) by omega]
      exact this
    rcases hout : outcomes att with v | ⟨status, ra⟩ | code
    · rw [hout] at h0
      simp [isRetryable] at h0
    · by_cases hs : (status == 429) = true
      · simp only [backoffLoop, hout]
        rw [if_pos hs]
        exact ih (att + 1) hnext
      · by_cases h5 : 500 ≤ status
        · simp only [backoffLoop, hout]
          rw [if_neg hs, if_pos h5]
          exact ih (att + 1) hnext
        · exfalso
          rw [hout] at h0
          simp only [isRetryable, Bool.or_eq_true, decide_eq_true_eq] at h0
          rcases h0 with h0 | h0
          · exact hs h0
          · exact h5 h0
    · simp only [backoffLoop, hout]
      exact ih (att + 1) hnext

theorem spotifyGetLoop_exhausted (responses : ℕ → HttpResponse) :
    ∀ (fuel att : ℕ), 1 ≤ att + fuel →
      (∀ j, j < att + fuel → (responses j).status = 429) →
      spotifyGetLoop responses att fuel = SpotifyGetResult.httpError 429 := by
  intro fuel
  induction fuel with
  | zero =>
    intro att h1 h
    match att, h1 with
    | a + 1, _ =>
      have ha : (responses a).status = 429 := h a (by omega)
      simp only [spotifyGetLoop, ha]
      norm_num
  | succ n ih =>
    intro att h1 h
    have ha : (responses att).status = 429 := h att (by omega)
    simp only [spotifyGetLoop, ha]
    norm_num
    exact ih (att + 1) (by omega) (fun j hj => h j (by omega))

/-- Amendment of claim C3: when every attempt fails with a retryable error,
`api_call_with_backoff` raises the generic max-retries exception, which
carries only the retry count (not the last underlying error); `spotify_get`,
whose loop can only be exhausted by repeated 429s, ends by re-raising the
HTTP error of its final response. -/
theorem C3_exhaustion_result (outcomes : ℕ → ApiOutcome)
    (responses : ℕ → HttpResponse) (max_retries initial_wait : ℕ)
    (hretry : ∀ i, i < max_retries → isRetryable (outcomes i) = true)
    (h429 : ∀ i, i < max_retries → (responses i).status = 429)
    (hpos : 1 ≤ max_retries) :
    (api_call_with_backoff outcomes max_retries initial_wait).1 =
      ApiResult.exhausted max_retries
    ∧ spotify_get responses max_retries = SpotifyGetResult.httpError 429 := by
  constructor
  · exact backoffLoop_exhausted outcomes initial_wait max_retries max_retries 0
      (fun j hj => by simpa using hretry j hj)
  · exact spotifyGetLoop_exhausted responses max_retries 0 (by omega)
      (fun j hj => h429 j (by simpa using hj))

/-- Witness for C3's amended statement: five connection errors exhaust
`api_call_with_backoff`; five 429s exhaust `spotify_get`. -/
theorem C3_exhaustion_result_witness :
    (api_call_with_backoff (fun _ => ApiOutcome.otherExc 3) 5 2).1 =
      ApiResult.exhausted 5
    ∧ spotify_get (fun _ => ⟨429, some 2, 0⟩) 5 = SpotifyGetResult.httpError 429 :=
  C3_exhaustion_result (fun _ => ApiOutcome.otherExc 3) (fun _ => ⟨429, some 2, 0⟩)
    5 2 (fun i _ => rfl) (fun i _ => rfl) (by omega)

/-! ## Release harvester lemmas (claims C4, C5) -/

theorem consumeAlbumItems_len (max_albums : ℕ) :
    ∀ (items : List Album) (seen : List String) (acc : List Album),
      acc.length < max_albums →
      ((consumeAlbumItems max_albums items seen acc).2.2 = true →
        (consumeAlbumItems max_albums items seen acc).1.length = max_albums)
      ∧ ((consumeAlbumItems max_albums items seen acc).2.2 = false →
        (consumeAlbumItems max_albums items seen acc).1.length < max_albums) := by
  intro items
  induction items with
  | nil =>
    intro seen acc hacc
    constructor
    · intro h
      simp [consumeAlbumItems] at h
    · intro _
      simpa [consumeAlbumItems] using hacc
  | cons alb rest ih =>
    intro seen acc hacc
    by_cases hmem : alb.id ∈ seen
    · simp only [consumeAlbumItems, if_pos hmem]
      exact ih seen acc hacc
    · simp only [consumeAlbumItems, if_neg hmem]
      by_cases hcap : max_albums ≤ (acc ++ [alb]).length
      · rw [if_pos hcap]
        constructor
        · intro _
          show (acc ++ [alb]).length = max_albums
          have hl : (acc ++ [alb]).length = acc.length + 1 := by simp
          omega
        · intro h
          simp at h
      · rw [if_neg hcap]
        apply ih
        have hl : (acc ++ [alb]).length = acc.length + 1 := by simp
        omega

theorem consumeAlbumItems_nodup (max_albums : ℕ) :
    ∀ (items : List Album) (seen : List String) (acc : List Album),
      (∀ a ∈ acc, a.id ∈ seen) → (acc.map Album.id).Nodup →
      (∀ a ∈ (consumeAlbumItems max_albums items seen acc).1,
          a.id ∈ (consumeAlbumItems max_albums items seen acc).2.1)
      ∧ ((consumeAlbumItems max_albums items seen acc).1.map Album.id).Nodup := by
  intro items
  induction items with
  | nil =>
    intro seen acc h1 h2
    exact ⟨h1, h2⟩
  | cons alb rest ih =>
    intro seen acc h1 h2
    by_cases hmem : alb.id ∈ seen
    · simp only [consumeAlbumItems, if_pos hmem]
      exact ih seen acc h1 h2
    · simp only [consumeAlbumItems, if_neg hmem]
      have h1b : ∀ a ∈ acc ++ [alb], a.id ∈ alb.id :: seen := by
        intro a ha
        rcases List.mem_append.mp ha with ha1 | ha2
        · exact List.mem_cons_of_mem _ (h1 a ha1)
        · simp only [List.mem_singleton] at ha2
          subst ha2
          exact List.mem_cons_self _ _
      have h2b : ((acc ++ [alb]).map Album.id).Nodup := by
        have hnotin : alb.id ∉ acc.map Album.id := by
          intro hin
          rw [List.mem_map] at hin
          obtain ⟨a, ha, haid⟩ := hin
          exact hmem (haid ▸ h1 a ha)
        rw [List.map_append]
        have hperm := List.perm_append_singleton alb.id (acc.map Album.id)
        rw [show (([alb] : List Album).map Album.id) = [alb.id] from rfl]
        rw [hperm.nodup_iff]
        exact List.nodup_cons.mpr ⟨hnotin, h2⟩
      by_cases hcap : max_albums ≤ (acc ++ [alb]).length
      · rw [if_pos hcap]
        exact ⟨h1b, h2b⟩
      · rw [if_neg hcap]
        exact ih _ _ h1b h2b

theorem albumsPageLoop_spec (max_albums : ℕ) :
    ∀ (pages : List AlbumPage) (seen : List String) (acc : List Album),
      acc.length < max_albums → (∀ a ∈ acc, a.id ∈ seen) → (acc.map Album.id).Nodup →
      (albumsPageLoopCapped max_albums pages seen acc = true →
        (albumsPageLoop max_albums pages seen acc).length = max_albums)
      ∧ (albumsPageLoop max_albums pages seen acc).length ≤ max_albums := by
  intro pages
  induction pages with
  | nil =>
    intro seen acc h1 _ _
    constructor
    · intro h
      simp [albumsPageLoopCapped] at h
    · simpa [albumsPageLoop] using le_of_lt h1
  | cons pg rest ih =>
    intro seen acc h1 h2 h3
    by_cases hemp : pg.items.isEmpty
    · simp only [albumsPageLoop, albumsPageLoopCapped, if_pos hemp]
      constructor
      · intro h
        simp at h
      · exact le_of_lt h1
    · simp only [albumsPageLoop, albumsPageLoopCapped, if_neg hemp]
      rcases hcons : consumeAlbumItems max_albums pg.items seen acc with ⟨acc2, seen2, flag⟩
      have hlen := consumeAlbumItems_len max_albums pg.items seen acc h1
      have hnd := consumeAlbumItems_nodup max_albums pg.items seen acc h2 h3
      rw [hcons] at hlen hnd
      cases flag with
      | true =>
        have heq : acc2.length = max_albums := hlen.1 rfl
        rw [if_pos (show ((acc2, seen2, true) :
            List Album × List String × Bool).2.2 = true from rfl)]
        rw [if_pos (show ((acc2, seen2, true) :
            List Album × List String × Bool).2.2 = true from rfl)]
        exact ⟨fun _ => heq, le_of_eq heq⟩
      | false =>
        have h1b : acc2.length < max_albums := hlen.2 rfl
        rw [if_neg (show ¬ ((acc2, seen2, false) :
            List Album × List String × Bool).2.2 = true by simp)]
        rw [if_neg (show ¬ ((acc2, seen2, false) :
            List Album × List String × Bool).2.2 = true by simp)]
        by_cases hnx : pg.next = true
        · rw [if_pos hnx, if_pos hnx]
          exact ih seen2 acc2 h1b hnd.1 hnd.2
        · rw [if_neg hnx, if_neg hnx]
          constructor
          · intro h
            simp at h
          · exact le_of_lt h1b

theorem albumsPageLoop_nodup (max_albums : ℕ) :
    ∀ (pages : List AlbumPage) (seen : List String) (acc : List Album),
      (∀ a ∈ acc, a.id ∈ seen) → (acc.map Album.id).Nodup →
      ((albumsPageLoop max_albums pages seen acc).map Album.id).Nodup := by
  intro pages
  induction pages with
  | nil =>
    intro seen acc _ h3
    exact h3
  | cons pg rest ih =>
    intro seen acc h2 h3
    by_cases hemp : pg.items.isEmpty
    · simp only [albumsPageLoop, if_pos hemp]
      exact h3
    · simp only [albumsPageLoop, if_neg hemp]
      rcases hcons : consumeAlbumItems max_albums pg.items seen acc with ⟨acc2, seen2, flag⟩
      have hnd := consumeAlbumItems_nodup max_albums pg.items seen acc h2 h3
      rw [hcons] at hnd
      cases flag with
      | true =>
        rw [if_pos (show ((acc2, seen2, true) :
            List Album × List String × Bool).2.2 = true from rfl)]
        exact hnd.2
      | false =>
        rw [if_neg (show ¬ ((acc2, seen2, false) :
            List Album × List String × Bool).2.2 = true by simp)]
        by_cases hnx : pg.next = true
        · rw [if_pos hnx]
          exact ih seen2 acc2 hnd.1 hnd.2
        · rw [if_neg hnx]
          exact hnd.2

/-- Claim C4 counterexample: with `max_albums = 0` and one nonempty page, the
cap check (which only runs after an item has been appended) fires with one
item already collected, so the function returns 1 ≠ 0 releases. -/
theorem C4_counterexample :
    albumsPageLoopCapped 0 [⟨[⟨"a", "A"⟩], false⟩] [] [] = true
    ∧ (get_artist_albums_albums_and_singles 0 [⟨[⟨"a", "A"⟩], false⟩]).length = 1 :=
  ⟨by decide, by decide⟩

/-- Amendment of claim C4: for `max_albums ≥ 1` (every call in the repository
uses the default 300), whenever the running unique count reaches
`max_albums` — i.e. the early return fires — pagination stops at once and
exactly `max_albums` unique releases are returned, without an error; the
result never exceeds `max_albums`. -/
theorem C4_cap_stops_with_exact_count (max_albums : ℕ) (pages : List AlbumPage)
    (h : 1 ≤ max_albums) :
    (albumsPageLoopCapped max_albums pages [] [] = true →
      (get_artist_albums_albums_and_singles max_albums pages).length = max_albums)
    ∧ (get_artist_albums_albums_and_singles max_albums pages).length ≤ max_albums := by
  have hs := albumsPageLoop_spec max_albums pages [] [] (by simpa using h)
    (by simp) (by simp)
  exact ⟨hs.1, hs.2⟩

/-- Witness for C4's amended statement: cap 1, one page of two albums. -/
theorem C4_cap_stops_with_exact_count_witness :
    albumsPageLoopCapped 1 [⟨[⟨"a", "A"⟩, ⟨"b", "B"⟩], true⟩] [] [] = true
    ∧ (get_artist_albums_albums_and_singles 1
        [⟨[⟨"a", "A"⟩, ⟨"b", "B"⟩], true⟩]).length = 1 := by
  have hc : albumsPageLoopCapped 1 [⟨[⟨"a", "A"⟩, ⟨"b", "B"⟩], true⟩] [] [] = true := by
    decide
  exact ⟨hc, (C4_cap_stops_with_exact_count 1 [⟨[⟨"a", "A"⟩, ⟨"b", "B"⟩], true⟩]
    (by omega)).1 hc⟩

/-! ## Extraction deduplication lemmas (claims C5, C7) -/

theorem goFind_append (artist_ids : List String) :
    ∀ (l1 l2 : List (Option MTrack)) (p : List String)
      (c : List ((String × String) × List String)),
      goFind artist_ids (l1 ++ l2) p c =
        goFind artist_ids l2 (goFind artist_ids l1 p c).1 (goFind artist_ids l1 p c).2 := by
  intro l1
  induction l1 with
  | nil => intro l2 p c; rfl
  | cons t rest ih =>
    intro l2 p c
    rcases t with _ | t
    · simp only [List.cons_append, goFind]
      exact ih l2 p c
    · rcases hid : t.id with _ | tid
    

      · simp only [List.cons_append, goFind, hid]
        exact ih l2 p c
      · by_cases hp : tid ∈ p
        · simp only [List.cons_append, goFind, hid, if_pos hp]
          exact ih l2 p c
        · by_cases hcol :
            2 ≤ (t.artistIds.filter (fun aid => decide (aid ∈ artist_ids))).length
          · simp only [List.cons_append, goFind, hid, if_neg hp, if_pos hcol]
            exact ih l2 _ _
          · simp only [List.cons_append, goFind, hid, if_neg hp, if_neg hcol]
            exact ih l2 _ _

theorem goFind_processed_mono (artist_ids : List String) :
    ∀ (l : List (Option MTrack)) (p : List String)
      (c : List ((String × String) × List String)) (x : String),
      x ∈ p → x ∈ (goFind artist_ids l p c).1 := by
  intro l
  induction l with
  | nil => intro p c x hx; exact hx
  | cons t rest ih =>
    intro p c x hx
    rcases t with _ | t
    · simp only [goFind]
      exact ih p c x hx
    · rcases hid : t.id with _ | tid
      · simp only [goFind, hid]
        exact ih p c x hx
      · by_cases hp : tid ∈ p
        · simp only [goFind, hid, if_pos hp]
          exact ih p c x hx
        · by_cases hcol :
            2 ≤ (t.artistIds.filter (fun aid => decide (aid ∈ artist_ids))).length
          · simp only [goFind, hid, if_neg hp, if_pos hcol]
            exact ih _ _ x (List.mem_cons_of_mem _ hx)
          · simp only [goFind, hid, if_neg hp, if_neg hcol]
            exact ih _ _ x (List.mem_cons_of_mem _ hx)

theorem goFind_processed_of_mem (artist_ids : List String) :
    ∀ (l : List (Option MTrack)) (p : List String)
      (c : List ((String × String) × List String)) (tr : MTrack) (tid : String),
      some tr ∈ l → tr.id = some tid → tid ∈ (goFind artist_ids l p c).1 := by
  intro l
  induction l with
  | nil => intro p c tr tid hmem; simp at hmem
  | cons t rest ih =>
    intro p c tr tid hmem hid
    rcases List.mem_cons.mp hmem with heq | hmem2
    · rw [← heq]
      simp only [goFind, hid]
      by_cases hp : tid ∈ p
      · rw [if_pos hp]
        exact goFind_processed_mono artist_ids rest p c tid hp
      · rw [if_neg hp]
        by_cases hcol :
          2 ≤ (tr.artistIds.filter (fun aid => decide (aid ∈ artist_ids))).length
        · rw [if_pos hcol]
          exact goFind_processed_mono artist_ids rest _ _ tid (List.mem_cons_self _ _)
        · rw [if_neg hcol]
          exact goFind_processed_mono artist_ids rest _ _ tid (List.mem_cons_self _ _)
    · rcases t with _ | t2
      · simp only [goFind]
        exact ih p c tr tid hmem2 hid
      · rcases hid2 : t2.id with _ | tid2
        · simp only [goFind, hid2]
          exact ih p c tr tid hmem2 hid
        · by_cases hp : tid2 ∈ p
          · simp only [goFind, hid2, if_pos hp]
            exact ih p c tr tid hmem2 hid
          · by_cases hcol :
              2 ≤ (t2.artistIds.filter (fun aid => decide (aid ∈ artist_ids))).length
            · simp only [goFind, hid2, if_neg hp, if_pos hcol]
              exact ih _ _ tr tid hmem2 hid
            · simp only [goFind, hid2, if_neg hp, if_neg hcol]
              exact ih _ _ tr tid hmem2 hid

theorem find_collaborations_skip_dup (artist_ids : List String)
    (tracks : List (Option MTrack)) (tr : MTrack) (tid : String)
    (hid : tr.id = some tid)
    (hseen : ∃ tr', some tr' ∈ tracks ∧ tr'.id = some tid) :
    find_collaborations (tracks ++ [some tr]) artist_ids =
      find_collaborations tracks artist_ids := by
  obtain ⟨tr', hmem, hid'⟩ := hseen
  rw [find_collaborations, find_collaborations, goFind_append]
  have hp : tid ∈ (goFind artist_ids tracks [] []).1 :=
    goFind_processed_of_mem artist_ids tracks [] [] tr' tid hmem hid'
  simp only [goFind, hid, if_pos hp]

theorem find_collaborations_skip_invalid (artist_ids : List String)
    (tracks : List (Option MTrack)) (trk : Option MTrack)
    (h : trk = none ∨ ∃ tr, trk = some tr ∧ tr.id = none) :
    find_collaborations (tracks ++ [trk]) artist_ids =
      find_collaborations tracks artist_ids := by
  rw [find_collaborations, find_collaborations, goFind_append]
  rcases h with hnone | ⟨tr, htr, hid⟩
  · subst hnone
    simp only [goFind]
  · subst htr
    simp only [goFind, hid]

/-- Claim C5 counterexample: `get_all_album_tracks` does not deduplicate —
two overlapping pages both containing the track with id `t1` make the
harvester yield that track id twice. -/
theorem C5_counterexample :
    get_all_album_tracks [⟨[⟨some "t1", "T", [⟨some "p", "P"⟩]⟩], true⟩,
        ⟨[⟨some "t1", "T", [⟨some "p", "P"⟩]⟩], false⟩]
      = [⟨some "t1", "T", [⟨some "p", "P"⟩]⟩, ⟨some "t1", "T", [⟨some "p", "P"⟩]⟩]
    ∧ ¬ ((get_all_album_tracks [⟨[⟨some "t1", "T", [⟨some "p", "P"⟩]⟩], true⟩,
        ⟨[⟨some "t1", "T", [⟨some "p", "P"⟩]⟩], false⟩]).map EgoTrack.id).Nodup :=
  ⟨by decide, by decide⟩

/-- Amendment of claim C5: release ids are deduplicated at harvest time (a
release discovered through overlapping pages is recorded once); track ids
are not deduplicated by the harvesters — in the matrix builder a repeated
track id is instead skipped during extraction via `find_collaborations`'
per-call `processed_tracks` set, contributing nothing further. -/
theorem C5_release_dedup_and_extraction_dedup (max_albums : ℕ)
    (pages : List AlbumPage) (artist_ids : List String)
    (tracks : List (Option MTrack)) (tr : MTrack) (tid : String)
    (hid : tr.id = some tid)
    (hseen : ∃ tr', some tr' ∈ tracks ∧ tr'.id = some tid) :
    ((get_artist_albums_albums_and_singles max_albums pages).map Album.id).Nodup
    ∧ find_collaborations (tracks ++ [some tr]) artist_ids =
        find_collaborations tracks artist_ids :=
  ⟨albumsPageLoop_nodup max_albums pages [] [] (by simp) (by simp),
   find_collaborations_skip_dup artist_ids tracks tr tid hid hseen⟩

/-- Witness for C5's amended statement. -/
theorem C5_release_dedup_and_extraction_dedup_witness :
    ((get_artist_albums_albums_and_singles 2
        [⟨[⟨"a", "A"⟩, ⟨"a", "A2"⟩], false⟩]).map Album.id).Nodup
    ∧ find_collaborations
        ([some ⟨some "t1", "S", ["p", "x"]⟩] ++ [some ⟨some "t1", "S", ["p", "x"]⟩])
        ["p", "x"]
      = find_collaborations [some ⟨some "t1", "S", ["p", "x"]⟩] ["p", "x"] :=
  C5_release_dedup_and_extraction_dedup 2 [⟨[⟨"a", "A"⟩, ⟨"a", "A2"⟩], false⟩]
    ["p", "x"] [some ⟨some "t1", "S", ["p", "x"]⟩] ⟨some "t1", "S", ["p", "x"]⟩ "t1"
    rfl ⟨⟨some "t1", "S", ["p", "x"]⟩, by decide, rfl⟩

/-! ## Code-point order bridge and canonical edge keys (claim C6) -/

theorem strLtB_iff_lt : ∀ (l1 l2 : List Char), strLtB l1 l2 = true ↔ l1 < l2 := by
  intro l1
  induction l1 with
  | nil =>
    intro l2
    cases l2 with
    | nil => exact iff_of_false (by simp [strLtB]) (List.Lex.not_nil_right _ _)
    | cons b bs => exact iff_of_true rfl List.Lex.nil
  | cons a as ih =>
    intro l2
    cases l2 with
    | nil => exact iff_of_false (by simp [strLtB]) (List.Lex.not_nil_right _ _)
    | cons b bs =>
      simp only [strLtB]
      by_cases h1 : a.toNat < b.toNat
      · rw [if_pos h1]
        exact iff_of_true rfl (List.Lex.rel (Char.lt_def.mpr h1))
      · rw [if_neg h1]
        by_cases h2 : b.toNat < a.toNat
        · rw [if_pos h2]
          refine iff_of_false (by simp) ?_
          intro h
          cases h with
          | cons ht => exact h1 h2
          | rel hr => exact h1 (Char.lt_def.mp hr)
        · rw [if_neg h2]
          have heq : a = b := by
            apply Char.ext
            apply UInt32.ext
            have h1b : ¬ a.val.toNat < b.val.toNat := h1
            have h2b : ¬ b.val.toNat < a.val.toNat := h2
            omega
          subst heq
          constructor
          · intro h
            exact List.Lex.cons ((ih bs).mp h)
          · intro h
            cases h with
            | cons ht => exact (ih bs).mpr ht
            | rel hr => exact absurd (Char.lt_def.mp hr) h1

theorem strLtB_lt_iff (a b : String) : strLtB a.data b.data = true ↔ a < b := by
  rw [String.lt_iff_toList_lt]
  exact strLtB_iff_lt a.data b.data

theorem sortPairB_eq_min_max (a b : String) : sortPairB a b = (min a b, max a b) := by
  rw [sortPairB]
  by_cases h : strLtB b.data a.data = true
  · rw [if_pos h]
    have hba : b < a := (strLtB_lt_iff b a).mp h
    rw [min_eq_right (le_of_lt hba), max_eq_left (le_of_lt hba)]
  · rw [if_neg h]
    have hnlt : ¬b < a := fun hc => h ((strLtB_lt_iff b a).mpr hc)
    have hab : a ≤ b := le_of_not_lt hnlt
    rw [min_eq_left hab, max_eq_right hab]

theorem pairsOf_mem :
    ∀ (l : List String) (a b : String), a ∈ l → b ∈ l → a ≠ b →
      (a, b) ∈ pairsOf l ∨ (b, a) ∈ pairsOf l := by
  intro l
  induction l with
  | nil => intro a b ha; simp at ha
  | cons c rest ih =>
    intro a b ha hb hne
    rcases List.mem_cons.mp ha with ha1 | ha2
    · subst ha1
      have hb2 : b ∈ rest := by
        rcases List.mem_cons.mp hb with hb1 | hb2
        · exact absurd hb1.symm hne
        · exact hb2
      left
      simp only [pairsOf]
      exact List.mem_append_left _ (List.mem_map.mpr ⟨b, hb2, rfl⟩)
    · rcases List.mem_cons.mp hb with hb1 | hb2
      · subst hb1
        right
        simp only [pairsOf]
        exact List.mem_append_left _ (List.mem_map.mpr ⟨a, ha2, rfl⟩)
      · rcases ih a b ha2 hb2 hne with h | h
        · left
          simp only [pairsOf]
          exact List.mem_append_right _ h
        · right
          simp only [pairsOf]
          exact List.mem_append_right _ h

theorem mem_keys_dictAppend (k : String × String) (v : String) :
    ∀ (m : List ((String × String) × List String)) (k' : String × String),
      k' ∈ m.map Prod.fst → k' ∈ (dictAppend m k v).map Prod.fst := by
  intro m
  induction m with
  | nil => intro k' h; simp at h
  | cons kv rest ih =>
    intro k' h
    rcases kv with ⟨k0, vs⟩
    by_cases he : k0 = k
    · simp only [dictAppend, if_pos he]
      simpa using h
    · simp only [dictAppend, if_neg he]
      simp only [List.map_cons, List.mem_cons] at h ⊢
      rcases h with h1 | h2
      · exact Or.inl h1
      · exact Or.inr (ih k' h2)

theorem self_mem_keys_dictAppend (k : String × String) (v : String) :
    ∀ (m : List ((String × String) × List String)),
      k ∈ (dictAppend m k v).map Prod.fst := by
  intro m
  induction m with
  | nil => simp [dictAppend]
  | cons kv rest ih =>
    rcases kv with ⟨k0, vs⟩
    by_cases he : k0 = k
    · simp [dictAppend, if_pos he, he]
    · simp only [dictAppend, if_neg he, List.map_cons, List.mem_cons]
      exact Or.inr ih

theorem foldl_dictAppend_keys (nm : String) :
    ∀ (pairs : List (String × String)) (m : List ((String × String) × List String))
      (k : String × String),
      (k ∈ m.map Prod.fst ∨ ∃ pr ∈ pairs, sortPairB pr.1 pr.2 = k) →
      k ∈ ((pairs.foldl (fun mm pr => dictAppend mm (sortPairB pr.1 pr.2) nm) m).map
        Prod.fst) := by
  intro pairs
  induction pairs with
  | nil =>
    intro m k h
    rcases h with h | ⟨pr, hpr, _⟩
    · exact h
    · simp at hpr
  | cons p rest ih =>
    intro m k h
    simp only [List.foldl_cons]
    apply ih
    rcases h with h | ⟨pr, hpr, heq⟩
    · exact Or.inl (mem_keys_dictAppend _ nm m k h)
    · rcases List.mem_cons.mp hpr with h1 | h2
      · subst h1
        left
        rw [← heq]
        exact self_mem_keys_dictAppend _ nm m
      · exact Or.inr ⟨pr, h2, heq⟩

theorem two_le_length_of_mem {α : Type} [DecidableEq α] {a b : α} {l : List α}
    (ha : a ∈ l) (hb : b ∈ l) (hne : a ≠ b) : 2 ≤ l.length := by
  have h1 : ({a, b} : Finset α) ⊆ l.toFinset := by
    intro x hx
    rw [List.mem_toFinset]
    rcases Finset.mem_insert.mp hx with h | h
    · subst h; exact ha
    · rw [Finset.mem_singleton] at h; subst h; exact hb
  have h2 := Finset.card_le_card h1
  rw [Finset.card_pair hne] at h2
  exact le_trans h2 (List.toFinset_card_le l)

theorem goFind_cons_new (artist_ids : List String) (tid tname : String)
    (credits : List String) (rest : List (Option MTrack)) (p : List String)
    (c : List ((String × String) × List String)) (hp : tid ∉ p)
    (hcol : 2 ≤ (credits.filter (fun aid => decide (aid ∈ artist_ids))).length) :
    goFind artist_ids (some ⟨some tid, tname, credits⟩ :: rest) p c =
      goFind artist_ids rest (tid :: p)
        ((pairsOf (credits.filter (fun aid => decide (aid ∈ artist_ids)))).foldl
          (fun m pr => dictAppend m (sortPairB pr.1 pr.2) tname) c) := by
  simp only [goFind]
  rw [if_neg hp, if_pos hcol]

/-- Claim C6: for two distinct artist ids `a` and `b` of the restricted
universe, both credited on a track, `find_collaborations` records the
canonical edge key `(min a b, max a b)`, whatever the order in which the two
appear in the track's credit list. -/
theorem C6_canonical_edge_key (a b tid tname : String)
    (credits artist_ids : List String) (hab : a ≠ b) (ha : a ∈ credits)
    (hb : b ∈ credits) (hua : a ∈ artist_ids) (hub : b ∈ artist_ids) :
    (min a b, max a b) ∈
      (find_collaborations [some ⟨some tid, tname, credits⟩] artist_ids).map
        Prod.fst := by
  have hac : a ∈ credits.filter (fun aid => decide (aid ∈ artist_ids)) :=
    List.mem_filter.mpr ⟨ha, by simpa using hua⟩
  have hbc : b ∈ credits.filter (fun aid => decide (aid ∈ artist_ids)) :=
    List.mem_filter.mpr ⟨hb, by simpa using hub⟩
  have h2 : 2 ≤ (credits.filter (fun aid => decide (aid ∈ artist_ids))).length :=
    two_le_length_of_mem hac hbc hab
  rw [find_collaborations, goFind_cons_new artist_ids tid tname credits [] [] []
    (by simp) h2]
  apply foldl_dictAppend_keys
  right
  rcases pairsOf_mem (credits.filter (fun aid => decide (aid ∈ artist_ids)))
    a b hac hbc hab with hpr | hpr
  · exact ⟨(a, b), hpr, sortPairB_eq_min_max a b⟩
  · refine ⟨(b, a), hpr, ?_⟩
    rw [sortPairB_eq_min_max b a, min_comm, max_comm]

/-- Witness for C6: the credit list mentions `b` before `a`, yet the key is
the sorted pair. -/
theorem C6_canonical_edge_key_witness :
    ("a" : String) ≠ "b" ∧
    (min ("a" : String) "b", max ("a" : String) "b") ∈
      (find_collaborations [some ⟨some "t1", "S", ["b", "a"]⟩] ["a", "b"]).map
        Prod.fst :=
  ⟨by decide, C6_canonical_edge_key "a" "b" "t1" "S" ["b", "a"] ["a", "b"]
    (by decide) (by decide) (by decide) (by decide) (by decide)⟩

/-! ## Ego-mode extraction lemmas (claims C7, C8) -/

theorem mem_addCollab (s : List (String × String)) (x y : String × String)
    (hy : y ∈ s) : y ∈ addCollab s x := by
  rw [addCollab]
  by_cases hx : x ∈ s
  · rw [if_pos hx]; exact hy
  · rw [if_neg hx]; exact List.mem_append_left _ hy

theorem self_mem_addCollab (s : List (String × String)) (x : String × String) :
    x ∈ addCollab s x := by
  rw [addCollab]
  by_cases hx : x ∈ s
  · rw [if_pos hx]; exact hx
  · rw [if_neg hx]; exact List.mem_append_right _ (by simp)

theorem addCollab_eq_of_mem (s : List (String × String)) (x : String × String)
    (hx : x ∈ s) : addCollab s x = s := if_pos hx

theorem egoFold_mono (primary : String) :
    ∀ (l : List EArtist) (s : List (String × String)) (y : String × String),
      y ∈ s → y ∈ egoFold primary s l := by
  intro l
  induction l with
  | nil => intro s y hy; exact hy
  | cons a rest ih =>
    intro s y hy
    simp only [egoFold, List.foldl_cons]
    rcases hid : a.id with _ | aid
    · simp only [hid]
      exact ih s y hy
    · simp only [hid]
      by_cases hc : aid = "" ∨ aid = primary
      · rw [if_pos hc]
        exact ih s y hy
      · rw [if_neg hc]
        exact ih _ y (mem_addCollab _ _ y hy)

theorem egoFold_contrib_mem (primary : String) :
    ∀ (l : List EArtist) (s : List (String × String)) (x : String × String),
      x ∈ egoContribsList primary l → x ∈ egoFold primary s l := by
  intro l
  induction l with
  | nil => intro s x hx; simp [egoContribsList] at hx
  | cons a rest ih =>
    intro s x hx
    simp only [egoFold, List.foldl_cons]
    rcases hid : a.id with _ | aid
    · simp only [egoContribsList, List.filterMap_cons, hid] at hx
      simp only [hid]
      exact ih s x hx
    · by_cases hc : aid = "" ∨ aid = primary
      · simp only [egoContribsList, List.filterMap_cons, hid, if_pos hc] at hx
        simp only [hid, if_pos hc]
        exact ih s x hx
      · simp only [egoContribsList, List.filterMap_cons, hid, if_neg hc] at hx
        simp only [hid, if_neg hc]
        rcases List.mem_cons.mp hx with h1 | h2
        · subst h1
          exact egoFold_mono primary rest _ _ (self_mem_addCollab _ _)
        · exact ih _ x h2

theorem egoFold_fixed (primary : String) :
    ∀ (l : List EArtist) (s : List (String × String)),
      (∀ x ∈ egoContribsList primary l, x ∈ s) → egoFold primary s l = s := by
  intro l
  induction l with
  | nil => intro s _; rfl
  | cons a rest ih =>
    intro s hsub
    simp only [egoFold, List.foldl_cons]
    rcases hid : a.id with _ | aid
    · simp only [egoContribsList, List.filterMap_cons, hid] at hsub
      simp only [hid]
      exact ih s hsub
    · by_cases hc : aid = "" ∨ aid = primary
      · simp only [egoContribsList, List.filterMap_cons, hid, if_pos hc] at hsub
        simp only [hid, if_pos hc]
        exact ih s hsub
      · simp only [egoContribsList, List.filterMap_cons, hid, if_neg hc] at hsub
        simp only [hid, if_neg hc]
        have hmem : (aid, a.name) ∈ s := hsub _ (List.mem_cons_self _ _)
        rw [addCollab_eq_of_mem s _ hmem]
        exact ih s (fun x hx => hsub x (List.mem_cons_of_mem _ hx))

theorem extract_foldl_mono (primary : String) :
    ∀ (l : List EgoTrack) (s : List (String × String)) (y : String × String),
      y ∈ s → y ∈ l.foldl (processEgoTrack primary) s := by
  intro l
  induction l with
  | nil => intro s y hy; exact hy
  | cons t rest ih =>
    intro s y hy
    simp only [List.foldl_cons]
    apply ih
    rw [processEgoTrack]
    by_cases hq : primary ∈ credIds t
    · rw [if_pos hq]
      exact egoFold_mono primary t.artists s y hy
    · rw [if_neg hq]
      exact hy

theorem extract_dup_track (primary : String) (tracks : List EgoTrack) (t : EgoTrack)
    (ht : t ∈ tracks) :
    extract_collaborators_from_tracks (tracks ++ [t]) primary =
      extract_collaborators_from_tracks tracks primary := by
  obtain ⟨l1, l2, hsplit⟩ := List.append_of_mem ht
  subst hsplit
  rw [extract_collaborators_from_tracks, extract_collaborators_from_tracks]
  simp only [List.foldl_append, List.foldl_cons, List.foldl_nil]
  by_cases hq : primary ∈ credIds t
  · rw [processEgoTrack, if_pos hq]
    apply egoFold_fixed
    intro x hx
    apply extract_foldl_mono primary l2 _ x
    rw [processEgoTrack, if_pos hq]
    exact egoFold_contrib_mem primary t.artists _ x hx
  · rw [processEgoTrack, if_neg hq]

/-- Claim C7 counterexample: in ego mode
(`extract_collaborators_from_tracks`) a track whose id is null is not
skipped — it contributes a collaborator, unlike the empty extraction. -/
theorem C7_counterexample :
    extract_collaborators_from_tracks
        [⟨none, "t", [⟨some "p", "P"⟩, ⟨some "x", "X"⟩]⟩] "p"
      ≠ extract_collaborators_from_tracks [] "p" := by decide

/-- Amendment of claim C7: in restricted mode (`find_collaborations`) a
track that is null or has a null/absent id is skipped without error, and a
track whose id was already seen in the same call contributes no additional
edges or evidence; in ego mode tracks are processed regardless of their id
(without error), and a duplicate of a track already in the list contributes
nothing because the collaborator set is a set. -/
theorem C7_null_and_duplicate_tracks (artist_ids : List String)
    (tracks : List (Option MTrack)) (trk : Option MTrack) (tr : MTrack)
    (tid : String) (etracks : List EgoTrack) (et : EgoTrack) (primary : String)
    (hinv : trk = none ∨ ∃ tr0, trk = some tr0 ∧ tr0.id = none)
    (hid : tr.id = some tid)
    (hseen : ∃ tr', some tr' ∈ tracks ∧ tr'.id = some tid)
    (het : et ∈ etracks) :
    find_collaborations (tracks ++ [trk]) artist_ids =
      find_collaborations tracks artist_ids
    ∧ find_collaborations (tracks ++ [some tr]) artist_ids =
        find_collaborations tracks artist_ids
    ∧ extract_collaborators_from_tracks (etracks ++ [et]) primary =
        extract_collaborators_from_tracks etracks primary :=
  ⟨find_collaborations_skip_invalid artist_ids tracks trk hinv,
   find_collaborations_skip_dup artist_ids tracks tr tid hid hseen,
   extract_dup_track primary etracks et het⟩

/-- Witness for C7's amended statement. -/
theorem C7_null_and_duplicate_tracks_witness :
    find_collaborations ([some ⟨some "t1", "S", ["p", "x"]⟩] ++ [some ⟨none, "N", ["p", "x"]⟩])
        ["p", "x"]
      = find_collaborations [some ⟨some "t1", "S", ["p", "x"]⟩] ["p", "x"]
    ∧ find_collaborations
        ([some ⟨some "t1", "S", ["p", "x"]⟩] ++ [some ⟨some "t1", "S2", ["p", "x"]⟩])
        ["p", "x"]
      = find_collaborations [some ⟨some "t1", "S", ["p", "x"]⟩] ["p", "x"]
    ∧ extract_collaborators_from_tracks
        ([⟨some "t1", "S", [⟨some "p", "P"⟩, ⟨some "x", "X"⟩]⟩] ++
          [⟨some "t1", "S", [⟨some "p", "P"⟩, ⟨some "x", "X"⟩]⟩]) "p"
      = extract_collaborators_from_tracks
          [⟨some "t1", "S", [⟨some "p", "P"⟩, ⟨some "x", "X"⟩]⟩] "p" :=
  C7_null_and_duplicate_tracks ["p", "x"] [some ⟨some "t1", "S", ["p", "x"]⟩]
    (some ⟨none, "N", ["p", "x"]⟩) ⟨some "t1", "S2", ["p", "x"]⟩ "t1"
    [⟨some "t1", "S", [⟨some "p", "P"⟩, ⟨some "x", "X"⟩]⟩]
    ⟨some "t1", "S", [⟨some "p", "P"⟩, ⟨some "x", "X"⟩]⟩ "p"
    (Or.inr ⟨⟨none, "N", ["p", "x"]⟩, rfl, rfl⟩) rfl
    ⟨⟨some "t1", "S", ["p", "x"]⟩, by decide, rfl⟩ (by decide)

/-! ## Edge-table rows (claim C8) -/

theorem mem_insertSorted {α : Type} (le : α → α → Bool) (x : α) :
    ∀ (l : List α) (y : α), y ∈ insertSorted le x l ↔ y = x ∨ y ∈ l := by
  intro l
  induction l with
  | nil => intro y; simp [insertSorted]
  | cons z rest ih =>
    intro y
    rw [insertSorted]
    by_cases hc : le x z = true
    · rw [if_pos hc]
      constructor
      · intro h
        exact List.mem_cons.mp h
      · intro h
        exact List.mem_cons.mpr h
    · rw [if_neg hc]
      constructor
      · intro h
        rcases List.mem_cons.mp h with h1 | h2
        · exact Or.inr (List.mem_cons.mpr (Or.inl h1))
        · rcases (ih y).mp h2 with h3 | h4
          · exact Or.inl h3
          · exact Or.inr (List.mem_cons.mpr (Or.inr h4))
      · intro h
        rcases h with h1 | h2
        · exact List.mem_cons.mpr (Or.inr ((ih y).mpr (Or.inl h1)))
        · rcases List.mem_cons.mp h2 with h3 | h4
          · exact List.mem_cons.mpr (Or.inl h3)
          · exact List.mem_cons.mpr (Or.inr ((ih y).mpr (Or.inr h4)))

theorem mem_sortedBy {α : Type} (le : α → α → Bool) :
    ∀ (l : List α) (y : α), y ∈ sortedBy le l ↔ y ∈ l := by
  intro l
  induction l with
  | nil => intro y; rfl
  | cons x rest ih =>
    intro y
    rw [sortedBy, mem_insertSorted, List.mem_cons, ih y]

/-- Claim C8 counterexample: the ego-mode output rows are identical whether
the pair shares one qualifying track or two, so no column of an ego-mode row
can equal the number of qualifying shared tracks (and no column holds the
joined track names). -/
theorem C8_counterexample :
    egoCollabRows "P" "p" [⟨some "t1", "S1", [⟨some "p", "P"⟩, ⟨some "x", "X"⟩]⟩]
      = egoCollabRows "P" "p"
          [⟨some "t1", "S1", [⟨some "p", "P"⟩, ⟨some "x", "X"⟩]⟩,
           ⟨some "t2", "S2", [⟨some "p", "P"⟩, ⟨some "x", "X"⟩]⟩]
    ∧ sharedTrackCount [⟨some "t1", "S1", [⟨some "p", "P"⟩, ⟨some "x", "X"⟩]⟩]
        "p" "x" = 1
    ∧ sharedTrackCount
        [⟨some "t1", "S1", [⟨some "p", "P"⟩, ⟨some "x", "X"⟩]⟩,
         ⟨some "t2", "S2", [⟨some "p", "P"⟩, ⟨some "x", "X"⟩]⟩] "p" "x" = 2 :=
  ⟨by decide, by decide, by decide⟩

/-- Amendment of claim C8: an ego-mode row holds exactly the four identity
cells `[primary name, primary id, collaborator id, collaborator name]` — no
evidence count, no track names; the evidence count and the `'; '`-joined
track names are the columns of the restricted-mode detail table written by
`save_collaboration_details`, where the count is the length of the pair's
evidence list. -/
theorem C8_row_contents (pn pid : String) (etracks : List EgoTrack)
    (collaborations : List ((String × String) × List String))
    (id_to_name : String → String) (row row2 : List String)
    (hrow : row ∈ egoCollabRows pn pid etracks)
    (hrow2 : row2 ∈ (save_collaboration_details collaborations id_to_name).drop 1) :
    (∃ cid cname, (cid, cname) ∈ extract_collaborators_from_tracks etracks pid ∧
        row = [pn, pid, cid, cname])
    ∧ (∃ a1 a2 tracks, ((a1, a2), tracks) ∈ collaborations ∧
        row2 = [id_to_name a1, id_to_name a2, toString tracks.length,
          String.intercalate "; " tracks]) := by
  constructor
  · rw [egoCollabRows] at hrow
    rw [List.mem_map] at hrow
    obtain ⟨p, hp, hpr⟩ := hrow
    rw [mem_sortedBy] at hp
    exact ⟨p.1, p.2, hp, hpr.symm⟩
  · rw [save_collaboration_details] at hrow2
    simp only [List.drop_succ_cons, List.drop_zero] at hrow2
    rw [List.mem_map] at hrow2
    obtain ⟨it, hit, hitr⟩ := hrow2
    rw [mem_sortedBy] at hit
    exact ⟨it.1.1, it.1.2, it.2, hit, hitr.symm⟩

/-- Witness for C8's amended statement. -/
theorem C8_row_contents_witness :
    (["P", "p", "x", "X"] ∈ egoCollabRows "P" "p"
        [⟨some "t1", "S1", [⟨some "p", "P"⟩, ⟨some "x", "X"⟩]⟩])
    ∧ (∃ cid cname,
        (cid, cname) ∈ extract_collaborators_from_tracks
          [⟨some "t1", "S1", [⟨some "p", "P"⟩, ⟨some "x", "X"⟩]⟩] "p" ∧
        ["P", "p", "x", "X"] = ["P", "p", cid, cname])
    ∧ (∃ a1 a2 tracks,
        ((a1, a2), tracks) ∈ [(("a", "b"), ["S1", "S2"])] ∧
        ["a", "b", "2", "S1; S2"] = [(fun i => i) a1, (fun i => i) a2,
          toString tracks.length, String.intercalate "; " tracks]) := by
  have hrow : ["P", "p", "x", "X"] ∈ egoCollabRows "P" "p"
      [⟨some "t1", "S1", [⟨some "p", "P"⟩, ⟨some "x", "X"⟩]⟩] := by decide
  have hrow2 : ["a", "b", "2", "S1; S2"] ∈
      (save_collaboration_details [(("a", "b"), ["S1", "S2"])] (fun i => i)).drop 1 := by
    decide
  have h := C8_row_contents "P" "p"
    [⟨some "t1", "S1", [⟨some "p", "P"⟩, ⟨some "x", "X"⟩]⟩]
    [(("a", "b"), ["S1", "S2"])] (fun i => i) ["P", "p", "x", "X"]
    ["a", "b", "2", "S1; S2"] hrow hrow2
  exact ⟨hrow, h.1, h.2⟩

/-! ## Checkpoint store and driver lemmas (claims C9, C10) -/

theorem load_eq_rowIdCells (f : Option (List (List String))) :
    load_already_processed_artists f = rowIdCells (csvDataRows f) := by
  cases f with
  | none => rfl
  | some c => rfl

theorem rowIdCells_append (r1 r2 : List (List String)) :
    rowIdCells (r1 ++ r2) = rowIdCells r1 ++ rowIdCells r2 := by
  rw [rowIdCells, List.filterMap_append, List.filter_append]
  rfl

theorem rowIdCells_collabRowsFor (cb : String → List (String × String))
    (name id : String) :
    ∀ s ∈ rowIdCells (collabRowsFor cb name id), s = id := by
  intro s hs
  rw [rowIdCells] at hs
  obtain ⟨hs1, _⟩ := List.mem_filter.mp hs
  obtain ⟨r, hr, hget⟩ := List.mem_filterMap.mp hs1
  rw [collabRowsFor] at hr
  obtain ⟨p, _, hpr⟩ := List.mem_map.mp hr
  rw [← hpr] at hget
  simp at hget
  exact hget.symm

theorem mem_rowIdCells_collabRowsFor (cb : String → List (String × String))
    (name id : String) (hne : id ≠ "") (hnon : cb id ≠ []) :
    id ∈ rowIdCells (collabRowsFor cb name id) := by
  obtain ⟨p, hp⟩ := List.exists_mem_of_ne_nil _ hnon
  rw [rowIdCells]
  apply List.mem_filter.mpr
  constructor
  · apply List.mem_filterMap.mpr
    refine ⟨[name, id, p.1, p.2], ?_, rfl⟩
    rw [collabRowsFor]
    exact List.mem_map.mpr ⟨p, hp, rfl⟩
  · simpa using hne

theorem append_csv_spec (rows : List (List String))
    (f : Option (List (List String))) (hok : ∀ c, f = some c → c ≠ []) :
    csvDataRows (append_collaborators_to_csv rows f) = csvDataRows f ++ rows
    ∧ ∀ c, append_collaborators_to_csv rows f = some c → c ≠ [] := by
  by_cases hre : rows.isEmpty
  · have hnil : rows = [] := by simpa using hre
    subst hnil
    rw [append_collaborators_to_csv.eq_def,
      if_pos (show ([] : List (List String)).isEmpty = true from rfl)]
    exact ⟨by simp, hok⟩
  · rw [append_collaborators_to_csv.eq_def, if_neg hre]
    cases f with
    | none =>
      constructor
      · simp [csvDataRows]
      · intro c hc
        cases hc
        simp
    | some c =>
      have hc : c ≠ [] := hok c rfl
      obtain ⟨h0, c2, hc2⟩ := List.exists_cons_of_ne_nil hc
      subst hc2
      constructor
      · simp [csvDataRows]
      · intro c3 hc3
        cases hc3
        simp

theorem pipelineRun_cons (cb : String → List (String × String))
    (a : String × String) (rest : List (String × String)) (st : DrvState) :
    pipelineRun cb (a :: rest) st = pipelineRun cb rest (driverStep cb st a) := by
  rw [pipelineRun, pipelineRun, List.foldl_cons]

theorem pipelineRun_append (cb : String → List (String × String))
    (l1 l2 : List (String × String)) (st : DrvState) :
    pipelineRun cb (l1 ++ l2) st = pipelineRun cb l2 (pipelineRun cb l1 st) := by
  rw [pipelineRun, pipelineRun, pipelineRun, List.foldl_append]

theorem pipelineRun_processed_mono (cb : String → List (String × String)) :
    ∀ (l : List (String × String)) (st : DrvState) (x : String),
      x ∈ st.processed → x ∈ (pipelineRun cb l st).processed := by
  intro l
  induction l with
  | nil => intro st x hx; exact hx
  | cons a rest ih =>
    intro st x hx
    rw [pipelineRun_cons]
    apply ih
    rw [driverStep]
    by_cases hm : a.2 ∈ st.processed
    · rw [if_pos hm]; exact hx
    · rw [if_neg hm]; exact List.mem_cons_of_mem _ hx

theorem pipelineRun_processed_src (cb : String → List (String × String)) :
    ∀ (l : List (String × String)) (st : DrvState) (x : String),
      x ∈ (pipelineRun cb l st).processed →
      x ∈ st.processed ∨ ∃ n, (n, x) ∈ l := by
  intro l
  induction l with
  | nil => intro st x hx; exact Or.inl hx
  | cons a rest ih =>
    intro st x hx
    rw [pipelineRun_cons] at hx
    rcases ih (driverStep cb st a) x hx with h1 | ⟨n, hn⟩
    · rw [driverStep] at h1
      by_cases hm : a.2 ∈ st.processed
      · rw [if_pos hm] at h1
        exact Or.inl h1
      · rw [if_neg hm] at h1
        rcases List.mem_cons.mp h1 with h2 | h3
        · subst h2
          exact Or.inr ⟨a.1, List.mem_cons_self a rest⟩
        · exact Or.inl h3
    · exact Or.inr ⟨n, List.mem_cons_of_mem _ hn⟩

theorem pipelineRun_processed_cover (cb : String → List (String × String)) :
    ∀ (l : List (String × String)) (st : DrvState) (n x : String),
      (n, x) ∈ l → x ∈ (pipelineRun cb l st).processed := by
  intro l
  induction l with
  | nil => intro st n x h; exact absurd h (List.not_mem_nil _)
  | cons a rest ih =>
    intro st n x h
    rw [pipelineRun_cons]
    rcases List.mem_cons.mp h with h1 | h2
    · apply pipelineRun_processed_mono
      rw [driverStep]
      have hax : a.2 = x := by rw [← h1]
      by_cases hm : a.2 ∈ st.processed
      · rw [if_pos hm, ← hax]
        exact hm
      · rw [if_neg hm, ← hax]
        exact List.mem_cons_self _ _
    · exact ih (driverStep cb st a) n x h2

theorem pipelineRun_file_spec (cb : String → List (String × String)) :
    ∀ (l : List (String × String)) (st : DrvState),
      (∀ c0, st.file = some c0 → c0 ≠ []) →
      (∀ c0, (pipelineRun cb l st).file = some c0 → c0 ≠ [])
      ∧ ∃ new, csvDataRows (pipelineRun cb l st).file = csvDataRows st.file ++ new
          ∧ ∀ r ∈ new, ∃ i, r.get? 1 = some i ∧ i ∉ st.processed := by
  intro l
  induction l with
  | nil =>
    intro st hok
    exact ⟨hok, [], by rw [pipelineRun]; simp, by simp⟩
  | cons a rest ih =>
    intro st hok
    rw [pipelineRun_cons]
    by_cases hm : a.2 ∈ st.processed
    · have hstep : driverStep cb st a = st := by rw [driverStep, if_pos hm]
      rw [hstep]
      obtain ⟨hok2, new2, hnew2, hids2⟩ := ih st hok
      exact ⟨hok2, new2, hnew2, hids2⟩
    · have hfile2 : (driverStep cb st a).file =
          append_collaborators_to_csv (collabRowsFor cb a.1 a.2) st.file := by
        rw [driverStep, if_neg hm]
      have hproc2 : (driverStep cb st a).processed = a.2 :: st.processed := by
        rw [driverStep, if_neg hm]
      have hap := append_csv_spec (collabRowsFor cb a.1 a.2) st.file hok
      obtain ⟨hok2, new2, hnew2, hids2⟩ := ih (driverStep cb st a)
        (by rw [hfile2]; exact hap.2)
      refine ⟨hok2, collabRowsFor cb a.1 a.2 ++ new2, ?_, ?_⟩
      · rw [hnew2, hfile2, hap.1, List.append_assoc]
      · intro r hr
        rcases List.mem_append.mp hr with h1 | h2
        · rw [collabRowsFor] at h1
          obtain ⟨p, _, hpr⟩ := List.mem_map.mp h1
          refine ⟨a.2, ?_, hm⟩
          rw [← hpr]
          rfl
        · obtain ⟨i, hgi, hni⟩ := hids2 r h2
          rw [hproc2] at hni
          exact ⟨i, hgi, fun hmem => hni (List.mem_cons_of_mem _ hmem)⟩

theorem pipelineRun_ids_good (cb : String → List (String × String)) :
    ∀ (l : List (String × String)) (st : DrvState),
      (∀ c0, st.file = some c0 → c0 ≠ []) →
      (∀ s ∈ load_already_processed_artists st.file, s ∈ st.processed ∧ cb s ≠ []) →
      (∀ i ∈ st.processed, i ≠ "" → cb i ≠ [] →
        i ∈ load_already_processed_artists st.file) →
      (∀ c0, (pipelineRun cb l st).file = some c0 → c0 ≠ [])
      ∧ (∀ s ∈ load_already_processed_artists (pipelineRun cb l st).file,
          s ∈ (pipelineRun cb l st).processed ∧ cb s ≠ [])
      ∧ (∀ i ∈ (pipelineRun cb l st).processed, i ≠ "" → cb i ≠ [] →
          i ∈ load_already_processed_artists (pipelineRun cb l st).file) := by
  intro l
  induction l with
  | nil => intro st h1 h2 h3; exact ⟨h1, h2, h3⟩
  | cons a rest ih =>
    intro st h1 h2 h3
    rw [pipelineRun_cons]
    by_cases hm : a.2 ∈ st.processed
    · have hstep : driverStep cb st a = st := by rw [driverStep, if_pos hm]
      rw [hstep]
      exact ih st h1 h2 h3
    · have hfile2 : (driverStep cb st a).file =
          append_collaborators_to_csv (collabRowsFor cb a.1 a.2) st.file := by
        rw [driverStep, if_neg hm]
      have hproc2 : (driverStep cb st a).processed = a.2 :: st.processed := by
        rw [driverStep, if_neg hm]
      have hap := append_csv_spec (collabRowsFor cb a.1 a.2) st.file h1
      have hload : load_already_processed_artists (driverStep cb st a).file =
          load_already_processed_artists st.file ++
            rowIdCells (collabRowsFor cb a.1 a.2) := by
        rw [hfile2, load_eq_rowIdCells, hap.1, rowIdCells_append, ← load_eq_rowIdCells]
      apply ih (driverStep cb st a)
      · rw [hfile2]
        exact hap.2
      · intro s hs
        rw [hload] at hs
        rcases List.mem_append.mp hs with hs1 | hs2
        · obtain ⟨hp, hcb⟩ := h2 s hs1
          refine ⟨?_, hcb⟩
          rw [hproc2]
          exact List.mem_cons_of_mem _ hp
        · have hseq : s = a.2 := rowIdCells_collabRowsFor cb a.1 a.2 s hs2
          subst hseq
          constructor
          · rw [hproc2]
            exact List.mem_cons_self _ _
          · intro hcb0
            rw [collabRowsFor, hcb0] at hs2
            simp [rowIdCells] at hs2
      · intro i hi hne hcb
        rw [hproc2] at hi
        rw [hload]
        rcases List.mem_cons.mp hi with hi1 | hi2
        · subst hi1
          exact List.mem_append_right _
            (mem_rowIdCells_collabRowsFor cb a.1 a.2 hne hcb)
        · exact List.mem_append_left _ (h3 i hi2 hne hcb)

theorem pipelineRun_file_eq_compat (cb : String → List (String × String)) :
    ∀ (l : List (String × String)) (stB stS : DrvState),
      stB.file = stS.file →
      (∀ x ∈ stS.processed, x ∈ stB.processed) →
      (∀ i ∈ stB.processed, i ∉ stS.processed → cb i = []) →
      (pipelineRun cb l stB).file = (pipelineRun cb l stS).file := by
  intro l
  induction l with
  | nil => intro stB stS hf _ _; exact hf
  | cons a rest ih =>
    intro stB stS hf hsub hdiff
    rw [pipelineRun_cons, pipelineRun_cons]
    by_cases hmS : a.2 ∈ stS.processed
    · have hmB : a.2 ∈ stB.processed := hsub _ hmS
      have hsB : driverStep cb stB a = stB := by rw [driverStep, if_pos hmB]
      have hsS : driverStep cb stS a = stS := by rw [driverStep, if_pos hmS]
      rw [hsB, hsS]
      exact ih stB stS hf hsub hdiff
    · by_cases hmB : a.2 ∈ stB.processed
      · have hempty : cb a.2 = [] := hdiff _ hmB hmS
        have hrows : collabRowsFor cb a.1 a.2 = [] := by
          rw [collabRowsFor, hempty]
          rfl
        have hsB : driverStep cb stB a = stB := by rw [driverStep, if_pos hmB]
        have hfS : (driverStep cb stS a).file = stS.file := by
          rw [driverStep, if_neg hmS]
          show append_collaborators_to_csv (collabRowsFor cb a.1 a.2) stS.file =
            stS.file
          rw [hrows]
          rfl
        have hpS : (driverStep cb stS a).processed = a.2 :: stS.processed := by
          rw [driverStep, if_neg hmS]
        rw [hsB]
        apply ih
        · rw [hfS]
          exact hf
        · intro x hx
          rw [hpS] at hx
          rcases List.mem_cons.mp hx with h1 | h2
          · subst h1
            exact hmB
          · exact hsub _ h2
        · intro i hi hni
          rw [hpS] at hni
          exact hdiff i hi (fun hmem => hni (List.mem_cons_of_mem _ hmem))
      · have hfB : (driverStep cb stB a).file =
            append_collaborators_to_csv (collabRowsFor cb a.1 a.2) stB.file := by
          rw [driverStep, if_neg hmB]
        have hpB : (driverStep cb stB a).processed = a.2 :: stB.processed := by
          rw [driverStep, if_neg hmB]
        have hfS : (driverStep cb stS a).file =
            append_collaborators_to_csv (collabRowsFor cb a.1 a.2) stS.file := by
          rw [driverStep, if_neg hmS]
        have hpS : (driverStep cb stS a).processed = a.2 :: stS.processed := by
          rw [driverStep, if_neg hmS]
        apply ih
        · rw [hfB, hfS, hf]
        · intro x hx
          rw [hpS] at hx
          rw [hpB]
          rcases List.mem_cons.mp hx with h1 | h2
          · subst h1
            exact List.mem_cons_self _ _
          · exact List.mem_cons_of_mem _ (hsub _ h2)
        · intro i hi hni
          rw [hpB] at hi
          rw [hpS] at hni
          rcases List.mem_cons.mp hi with h1 | h2
          · subst h1
            exact absurd (List.mem_cons_self _ _) hni
          · exact hdiff i h2 (fun hmem => hni (List.mem_cons_of_mem _ hmem))

theorem pipelineRun_replay (cb : String → List (String × String))
    (F1 : Option (List (List String))) (P1 : List String) :
    ∀ (l : List (String × String)) (Q : List String),
      (∀ a ∈ l, a.2 ≠ "" ∧ (cb a.2 ≠ [] → a.2 ∈ load_already_processed_artists F1)) →
      (∀ x ∈ load_already_processed_artists F1, x ∈ Q) →
      (∀ x ∈ Q, x ∈ P1) →
      (∀ a ∈ l, a.2 ∈ P1) →
      (pipelineRun cb l ⟨F1, Q⟩).file = F1
      ∧ (∀ x ∈ (pipelineRun cb l ⟨F1, Q⟩).processed, x ∈ P1)
      ∧ (∀ x ∈ load_already_processed_artists F1,
          x ∈ (pipelineRun cb l ⟨F1, Q⟩).processed) := by
  intro l
  induction l with
  | nil =>
    intro Q _ h2 h3 _
    exact ⟨rfl, h3, h2⟩
  | cons a rest ih =>
    intro Q hcomp hQ0 hQP hlP
    rw [pipelineRun_cons]
    by_cases hm : a.2 ∈ Q
    · have hs : driverStep cb ⟨F1, Q⟩ a = ⟨F1, Q⟩ := by
        rw [driverStep,
          if_pos (show a.2 ∈ (⟨F1, Q⟩ : DrvState).processed from hm)]
      rw [hs]
      exact ih Q (fun x hx => hcomp x (List.mem_cons_of_mem _ hx)) hQ0 hQP
        (fun x hx => hlP x (List.mem_cons_of_mem _ hx))
    · have hempty : cb a.2 = [] := by
        by_contra hne
        exact hm (hQ0 _ ((hcomp a (List.mem_cons_self _ _)).2 hne))
      have hrows : collabRowsFor cb a.1 a.2 = [] := by
        rw [collabRowsFor, hempty]
        rfl
      have hs : driverStep cb ⟨F1, Q⟩ a = ⟨F1, a.2 :: Q⟩ := by
        rw [driverStep,
          if_neg (show ¬ a.2 ∈ (⟨F1, Q⟩ : DrvState).processed from hm), hrows]
        rfl
      rw [hs]
      refine ih (a.2 :: Q) (fun x hx => hcomp x (List.mem_cons_of_mem _ hx))
        (fun x hx => List.mem_cons_of_mem _ (hQ0 x hx)) (fun x hx => ?_)
        (fun x hx => hlP x (List.mem_cons_of_mem _ hx))
      rcases List.mem_cons.mp hx with h1 | h2
      · subst h1
        exact hlP a (List.mem_cons_self _ _)
      · exact hQP x h2

/-- Claim C9: running the pipeline on a roster, interrupting after the first
`k` artists, then rerunning on the same roster with the same deterministic
harvest results, produces exactly the file of an uninterrupted run; the
rerun's rows extend the interrupted file (rows for artists `1..k` unchanged)
and none of the appended rows carries a primary-artist id already present in
the interrupted file (no duplication). -/
theorem C9_checkpoint_resume (cb : String → List (String × String))
    (roster : List (String × String)) (k : ℕ)
    (hids : ∀ a ∈ roster, a.2 ≠ "") :
    mainPipeline cb roster (mainPipeline cb (roster.take k) none) =
      mainPipeline cb roster none
    ∧ ∃ newRows,
        csvDataRows (mainPipeline cb roster (mainPipeline cb (roster.take k) none)) =
          csvDataRows (mainPipeline cb (roster.take k) none) ++ newRows
        ∧ ∀ r ∈ newRows, ∀ s, r.get? 1 = some s →
            s ∉ load_already_processed_artists
                (mainPipeline cb (roster.take k) none) := by
  have hst1eq : mainPipeline cb (roster.take k) none =
      (pipelineRun cb (roster.take k) ⟨none, []⟩).file := rfl
  have gd := pipelineRun_ids_good cb (roster.take k) ⟨none, []⟩
    (by intro c0 hc0; simp at hc0)
    (by intro s hs; exact absurd hs (List.not_mem_nil s))
    (by intro i hi; exact absurd hi (List.not_mem_nil i))
  have htake : ∀ a ∈ roster.take k, a ∈ roster :=
    fun a ha => List.take_subset k roster ha
  have hcomp : ∀ a ∈ roster.take k, a.2 ≠ "" ∧
      (cb a.2 ≠ [] → a.2 ∈ load_already_processed_artists
        (pipelineRun cb (roster.take k) ⟨none, []⟩).file) := by
    intro a ha
    refine ⟨hids a (htake a ha), fun hne => ?_⟩
    have hp : a.2 ∈ (pipelineRun cb (roster.take k) ⟨none, []⟩).processed :=
      pipelineRun_processed_cover cb (roster.take k) ⟨none, []⟩ a.1 a.2 ha
    exact gd.2.2 a.2 hp (hids a (htake a ha)) hne
  have hQP0 : ∀ x ∈ load_already_processed_artists
      (pipelineRun cb (roster.take k) ⟨none, []⟩).file,
      x ∈ (pipelineRun cb (roster.take k) ⟨none, []⟩).processed :=
    fun x hx => (gd.2.1 x hx).1
  have hlP : ∀ a ∈ roster.take k,
      a.2 ∈ (pipelineRun cb (roster.take k) ⟨none, []⟩).processed := by
    intro a ha
    exact pipelineRun_processed_cover cb (roster.take k) ⟨none, []⟩ a.1 a.2 ha
  have rep := pipelineRun_replay cb
    (pipelineRun cb (roster.take k) ⟨none, []⟩).file
    (pipelineRun cb (roster.take k) ⟨none, []⟩).processed
    (roster.take k)
    (load_already_processed_artists (pipelineRun cb (roster.take k) ⟨none, []⟩).file)
    hcomp (fun x hx => hx) hQP0 hlP
  have hdiff : ∀ i ∈ (pipelineRun cb (roster.take k) ⟨none, []⟩).processed,
      i ∉ (pipelineRun cb (roster.take k)
        ⟨(pipelineRun cb (roster.take k) ⟨none, []⟩).file,
          load_already_processed_artists
            (pipelineRun cb (roster.take k) ⟨none, []⟩).file⟩).processed →
      cb i = [] := by
    intro i hi hni
    by_contra hne
    rcases pipelineRun_processed_src cb (roster.take k) ⟨none, []⟩ i hi with
      h1 | ⟨n, hn⟩
    · exact absurd h1 (List.not_mem_nil i)
    · have hine : i ≠ "" := hids (n, i) (htake _ hn)
      have hmem : i ∈ load_already_processed_artists
          (pipelineRun cb (roster.take k) ⟨none, []⟩).file :=
        gd.2.2 i hi hine hne
      exact hni (rep.2.2 i hmem)
  have hsplit : roster.take k ++ roster.drop k = roster :=
    List.take_append_drop k roster
  have hsplitrun : ∀ st0 : DrvState, pipelineRun cb roster st0 =
      pipelineRun cb (roster.drop k) (pipelineRun cb (roster.take k) st0) := by
    intro st0
    conv_lhs => rw [← hsplit]
    rw [pipelineRun_append]
  have hU : mainPipeline cb roster none =
      (pipelineRun cb (roster.drop k)
        (pipelineRun cb (roster.take k) ⟨none, []⟩)).file := by
    rw [show mainPipeline cb roster none =
      (pipelineRun cb roster ⟨none, []⟩).file from rfl, hsplitrun]
  have hF2 : mainPipeline cb roster
        (pipelineRun cb (roster.take k) ⟨none, []⟩).file =
      (pipelineRun cb (roster.drop k)
        (pipelineRun cb (roster.take k)
          ⟨(pipelineRun cb (roster.take k) ⟨none, []⟩).file,
            load_already_processed_artists
              (pipelineRun cb (roster.take k) ⟨none, []⟩).file⟩)).file := by
    rw [show mainPipeline cb roster
        (pipelineRun cb (roster.take k) ⟨none, []⟩).file =
      (pipelineRun cb roster
        ⟨(pipelineRun cb (roster.take k) ⟨none, []⟩).file,
          load_already_processed_artists
            (pipelineRun cb (roster.take k) ⟨none, []⟩).file⟩).file from rfl,
      hsplitrun]
  constructor
  · rw [hst1eq, hF2, hU]
    exact (pipelineRun_file_eq_compat cb (roster.drop k)
      (pipelineRun cb (roster.take k) ⟨none, []⟩)
      (pipelineRun cb (roster.take k)
        ⟨(pipelineRun cb (roster.take k) ⟨none, []⟩).file,
          load_already_processed_artists
            (pipelineRun cb (roster.take k) ⟨none, []⟩).file⟩)
      rep.1.symm rep.2.1 hdiff).symm
  · obtain ⟨-, new2, hnew2, hids2⟩ := pipelineRun_file_spec cb roster
      ⟨(pipelineRun cb (roster.take k) ⟨none, []⟩).file,
        load_already_processed_artists
          (pipelineRun cb (roster.take k) ⟨none, []⟩).file⟩
      (by intro c0 hc0; exact gd.1 c0 hc0)
    refine ⟨new2, ?_, ?_⟩
    · rw [hst1eq]
      exact hnew2
    · intro r hr s hs
      rw [hst1eq]
      obtain ⟨i, hgi, hni⟩ := hids2 r hr
      have hsi : s = i := Option.some.inj (hs.symm.trans hgi)
      subst hsi
      exact hni

/-- Witness for C9: three artists, the second with an empty collaborator
list; interruption after the second artist. -/
theorem C9_checkpoint_resume_witness :
    (∀ a ∈ ([("A", "a1"), ("B", "a2"), ("C", "a3")] : List (String × String)),
      a.2 ≠ "")
    ∧ (mainPipeline
        (fun i => if i = "a1" then [("c1", "C")]
          else if i = "a2" then [] else [("c2", "D")])
        [("A", "a1"), ("B", "a2"), ("C", "a3")]
        (mainPipeline
          (fun i => if i = "a1" then [("c1", "C")]
            else if i = "a2" then [] else [("c2", "D")])
          ([("A", "a1"), ("B", "a2"), ("C", "a3")].take 2) none) =
      mainPipeline
        (fun i => if i = "a1" then [("c1", "C")]
          else if i = "a2" then [] else [("c2", "D")])
        [("A", "a1"), ("B", "a2"), ("C", "a3")] none) := by
  have h : ∀ a ∈ ([("A", "a1"), ("B", "a2"), ("C", "a3")] : List (String × String)),
      a.2 ≠ "" := by decide
  exact ⟨h, (C9_checkpoint_resume
    (fun i => if i = "a1" then [("c1", "C")]
      else if i = "a2" then [] else [("c2", "D")])
    [("A", "a1"), ("B", "a2"), ("C", "a3")] 2 h).1⟩

/-- Claim C10: an empty collaborator list makes the checkpoint append a
complete no-op (no file created, no header written, existing file
byte-identical — the same frame effect as a failed artist, whose exception
also skips the append); consequently that artist's id never appears in the
`primary_artist_id` column, so the processed-set computed by a later run
does not contain it and the artist is harvested again on restart. -/
theorem C10_empty_harvest_noop (cb : String → List (String × String))
    (roster : List (String × String)) (id0 nm : String) (st : DrvState)
    (f : Option (List (List String))) (h0 : cb id0 = []) :
    append_collaborators_to_csv [] f = f
    ∧ (driverStep cb st (nm, id0)).file = st.file
    ∧ id0 ∉ load_already_processed_artists (mainPipeline cb roster none) := by
  refine ⟨rfl, ?_, ?_⟩
  · rw [driverStep]
    by_cases hm : (nm, id0).2 ∈ st.processed
    · rw [if_pos hm]
    · rw [if_neg hm]
      show append_collaborators_to_csv (collabRowsFor cb nm id0) st.file = st.file
      rw [collabRowsFor, h0]
      rfl
  · intro hmem
    have gd := pipelineRun_ids_good cb roster ⟨none, []⟩
      (by intro c0 hc0; simp at hc0)
      (by intro s hs; exact absurd hs (List.not_mem_nil s))
      (by intro i hi; exact absurd hi (List.not_mem_nil i))
    exact (gd.2.1 id0 hmem).2 h0

/-- Witness for C10. -/
theorem C10_empty_harvest_noop_witness :
    append_collaborators_to_csv [] (none : Option (List (List String))) = none
    ∧ (driverStep (fun i => if i = "a1" then [("c", "C")] else [])
        ⟨none, []⟩ ("B", "b2")).file = (⟨none, []⟩ : DrvState).file
    ∧ "b2" ∉ load_already_processed_artists
        (mainPipeline (fun i => if i = "a1" then [("c", "C")] else [])
          [("A", "a1"), ("B", "b2")] none) :=
  C10_empty_harvest_noop (fun i => if i = "a1" then [("c", "C")] else [])
    [("A", "a1"), ("B", "b2")] "b2" "B" ⟨none, []⟩ none (by decide)
